import Mathlib

/-!
A shallow embedding of the parameter arena (`Params`) from
`src/thinc/neural/params.py`, together with theorems about its behaviour.

The numpy storage is modelled explicitly: a `Heap` is a list of `Buffer`s
(2-D numeric arrays, identified by their index in the list), and a `View`
is a column-range window into one buffer, exactly like a numpy basic-slice
view `buf[:, off : off + cols]`.  A view never restricts rows, so its row
count is the row count of the buffer it points into.  This lets buffer
identity ("the same backing storage") and aliasing ("a write through one
view is visible through another") be stated directly.

Each method of the Python class becomes a Lean function that threads the
heap and returns its final (possibly partially mutated) state together
with an `Except`-style outcome, mirroring Python exceptions: when a method
raises after mutating, the mutations are kept, exactly as in Python.
-/

namespace ParamsModel

abbrev Val := Int

/-- A 2-D numeric array of shape `(rows, cols)`.  `data` is total; only
entries with `r < rows` are ever read by the operations below. -/
structure Buffer where
  rows : Nat
  cols : Nat
  data : Nat → Nat → Val

/-- `numpy.zeros((rows, cols))`: the zero-filled buffer `ops.allocate` returns. -/
def Buffer.zero (rows cols : Nat) : Buffer :=
  ⟨rows, cols, fun _ _ => 0⟩

/-- All live numpy arrays; a buffer's identity is its index. -/
structure Heap where
  bufs : List Buffer

def Heap.getBuf (h : Heap) (j : Nat) : Option Buffer :=
  h.bufs.get? j

/-- Allocate a fresh buffer; returns its identity and the grown heap. -/
def Heap.alloc (h : Heap) (b : Buffer) : Nat × Heap :=
  (h.bufs.length, ⟨h.bufs ++ [b]⟩)

/-- A basic-slice view `buf[:, off : off + cols]` over buffer `buf`. -/
structure View where
  buf : Nat
  off : Nat
  cols : Nat
deriving DecidableEq

/-- Row count of the buffer a view points into (`view.shape[0]`). -/
def Heap.viewRows (h : Heap) (v : View) : Nat :=
  match h.getBuf v.buf with
  | some b => b.rows
  | none => 0

/-- `v[r, c]`: read one cell through a view. -/
def Heap.readV (h : Heap) (v : View) (r c : Nat) : Val :=
  match h.getBuf v.buf with
  | some b => b.data r (v.off + c)
  | none => 0

def Buffer.writeCell (b : Buffer) (r c : Nat) (x : Val) : Buffer :=
  { b with data := fun r' c' => if r' = r ∧ c' = c then x else b.data r' c' }

/-- `v[r, c] = x`: write one cell through a view. -/
def Heap.writeV (h : Heap) (v : View) (r c : Nat) (x : Val) : Heap :=
  match h.getBuf v.buf with
  | some b => ⟨h.bufs.set v.buf (b.writeCell r (v.off + c) x)⟩
  | none => h

/-- Overwrite the rectangle `rows < rcount`, columns `[off, off + w)` of a
buffer with `f r (c - off)`, leaving everything else unchanged. -/
def Buffer.writeRegion (b : Buffer) (rcount off w : Nat) (f : Nat → Nat → Val) : Buffer :=
  { b with data := fun r c =>
      if r < rcount ∧ off ≤ c ∧ c < off + w then f r (c - off) else b.data r c }

/-- Bulk slice assignment `v[:rcount, :] = ...` through a view. -/
def Heap.writeRegionV (h : Heap) (v : View) (rcount : Nat) (f : Nat → Nat → Val) : Heap :=
  match h.getBuf v.buf with
  | some b => ⟨h.bufs.set v.buf (b.writeRegion rcount v.off v.cols f)⟩
  | none => h

/-- Failure outcomes.  The Python source raises bare `ValueError("TODO ...")`
everywhere; the constructors name the raise site so that the spec's
`InvalidArgument` (negative size, frozen child in merge) and `NotResizable`
(reallocation of a frozen arena) can be told apart.  `broadcast` and
`reshape` are numpy shape-mismatch exceptions. -/
inductive Err where
  | negativeSize
  | mergeFrozenChild
  | replaceFrozen
  | notResizable
  | broadcast
  | reshape
deriving DecidableEq

/-- The reshaped view a caller receives from `get`/`add`: a run of
`view.cols` columns of row `row`, presented with shape `shape`. -/
structure Blob where
  view : View
  row : Nat
  shape : List Nat
deriving DecidableEq

/-- `s.startswith(t)` on Python strings, as character sequences. -/
def strStartsWith (s t : String) : Bool :=
  t.data.isPrefixOf s.data

/-- `s[n:]` on Python strings, as character sequences. -/
def strDrop (s : String) (n : Nat) : String :=
  ⟨s.data.drop n⟩

/-- The directory `self._offsets`: name to `(offset, shape)`. -/
def lookupOff : List (String × Nat × List Nat) → String → Option (Nat × List Nat)
  | [], _ => none
  | (m, v) :: rest, n => if m = n then some v else lookupOff rest n

/-- `self._offsets[name] = (i, shape)`: dict insert-or-replace. -/
def setOff (l : List (String × Nat × List Nat)) (n : String) (v : Nat × List Nat) :
    List (String × Nat × List Nat) :=
  (n, v) :: l.filter fun e => !(e.1 == n)

/-- The `Params` object: `_mem` (a view on the backing storage),
`_offsets`, `_i` (the cursor) and `allow_resize`. -/
structure Params where
  mem : View
  offsets : List (String × Nat × List Nat)
  i : Nat
  allow_resize : Bool
deriving DecidableEq

/-- `__init__` body after the size check: allocate a zero-filled
`(1, size)` buffer, empty directory, cursor 0, resizable. -/
def Params.initNonneg (h : Heap) (size : Nat) : Params × Heap :=
  let a := h.alloc (Buffer.zero 1 size)
  (⟨⟨a.1, 0, size⟩, [], 0, true⟩, a.2)

/-- `Params.__init__(ops, size)`: raises on a negative size. -/
def Params.init (h : Heap) (size : Int) : Except Err (Params × Heap) :=
  if size < 0 then .error .negativeSize
  else .ok (Params.initNonneg h size.toNat)

/-- `Params._realloc(new_size)`: refuse when frozen, else allocate a
zero-filled `(rows, new_size)` buffer and run
`new_mem[:, :self._i+1] = self._mem[:, :self._i+1]` (with numpy's slice
clamping and broadcast rules), then adopt the new buffer.  On a broadcast
mismatch the exception leaves `self` untouched (the orphan allocation
stays in the heap, as in Python before it is garbage collected). -/
def Params.realloc (p : Params) (h : Heap) (new_size : Nat) : Except Err Unit × Params × Heap :=
  if p.allow_resize = false then (.error .notResizable, p, h)
  else
    let rows := h.viewRows p.mem
    let a := h.alloc (Buffer.zero rows new_size)
    let dstW := min (p.i + 1) new_size
    let srcW := min (p.i + 1) p.mem.cols
    if srcW = dstW ∨ srcW = 1 then
      let h2 := a.2.writeRegionV ⟨a.1, 0, dstW⟩ rows
        (fun r c => h.readV p.mem r (if srcW = 1 then 0 else c))
      (.ok (), { p with mem := ⟨a.1, 0, new_size⟩ }, h2)
    else (.error .broadcast, p, a.2)

/-- `Params._alloc_gradients()`: allocate a `(2, cols)` zero buffer, copy
row 0 of the current view into its row 0 (`new_mem[0] = self._mem[0]`),
adopt it.  Note: no `allow_resize` check in the source. -/
def Params.alloc_gradients (p : Params) (h : Heap) : Params × Heap :=
  let w := p.mem.cols
  let a := h.alloc (Buffer.zero 2 w)
  let h2 := a.2.writeRegionV ⟨a.1, 0, w⟩ 1 (fun _ c => h.readV p.mem 0 c)
  ({ p with mem := ⟨a.1, 0, w⟩ }, h2)

/-- `Params._get_blob(nr_req)`: grow by doubling when the available
columns `cols - (cursor + 1)` (possibly negative) are fewer than
requested, then carve `self._mem[:, i : i + nr_req]` (numpy clamps the
slice) and advance the cursor by the full `nr_req`. -/
def Params.get_blob (p : Params) (h : Heap) (nr_req : Nat) : Except Err View × Params × Heap :=
  let nr_avail : Int := (p.mem.cols : Int) - ((p.i : Int) + 1)
  if nr_avail < (nr_req : Int) then
    match p.realloc h (max p.mem.cols nr_req * 2) with
    | (.error e, p1, h1) => (.error e, p1, h1)
    | (.ok _, p1, h1) =>
      (.ok ⟨p1.mem.buf, p1.mem.off + p1.i, min nr_req (p1.mem.cols - p1.i)⟩,
       { p1 with i := p1.i + nr_req }, h1)
  else
    (.ok ⟨p.mem.buf, p.mem.off + p.i, min nr_req (p.mem.cols - p.i)⟩,
     { p with i := p.i + nr_req }, h)

/-- The pure lookup tail of `Params.get`: directory lookup, then
`self._mem[col, offset : offset + prod(shape)].reshape(shape)`; the 1-D
slice is clamped to the view width, and `reshape` raises when the clamped
length differs from `prod(shape)`. -/
def Params.lookup_blob (p : Params) (base : String) (col : Nat) : Except Err (Option Blob) :=
  match lookupOff p.offsets base with
  | none => .ok none
  | some (off, shape) =>
    let len := min shape.prod (p.mem.cols - off)
    if len = shape.prod then
      .ok (some ⟨⟨p.mem.buf, p.mem.off + off, len⟩, col, shape⟩)
    else .error .reshape

/-- `Params.get(name)`: gradient names (prefixed `d_`) first lazily grow
the buffer to two rows when it has one, then read row 1 under the
stripped name; other names read row 0.  Missing names give `none`. -/
def Params.get (p : Params) (h : Heap) (name : String) : Except Err (Option Blob) × Params × Heap :=
  if strStartsWith name "d_" then
    let s := if h.viewRows p.mem = 1 then p.alloc_gradients h else (p, h)
    (s.1.lookup_blob (strDrop name 2) 1, s.1, s.2)
  else
    (p.lookup_blob name 0, p, h)

/-- `Params.add(name, shape)`: record `(cursor, shape)` under `name`
(insert-or-replace), carve `prod(shape)` columns, and return
`blob.reshape(shape)`; the blob spans all rows of the buffer, so the
reshape demands `rows * width = prod(shape)`. -/
def Params.add (p : Params) (h : Heap) (name : String) (shape : List Nat) :
    Except Err Blob × Params × Heap :=
  let p1 := { p with offsets := setOff p.offsets name (p.i, shape) }
  match p1.get_blob h shape.prod with
  | (.error e, p2, h2) => (.error e, p2, h2)
  | (.ok v, p2, h2) =>
    if h2.viewRows v * v.cols = shape.prod then (.ok ⟨v, 0, shape⟩, p2, h2)
    else (.error .reshape, p2, h2)

/-- `Params.replace_mem(mem)`: refuse when already frozen, else freeze,
run `mem[:] = self._mem[:, :self._i]` (numpy broadcast rules), and adopt
`mem` as the new backing view.  The freeze happens before the copy, so a
broadcast failure still leaves the object frozen, as in Python. -/
def Params.replace_mem (p : Params) (h : Heap) (mem : View) : Except Err Unit × Params × Heap :=
  if p.allow_resize = false then (.error .replaceFrozen, p, h)
  else
    let p1 := { p with allow_resize := false }
    let dstR := h.viewRows mem
    let srcR := h.viewRows p.mem
    let srcW := min p.i p.mem.cols
    if (srcR = dstR ∨ srcR = 1) ∧ (srcW = mem.cols ∨ srcW = 1) then
      let h1 := h.writeRegionV mem dstR (fun r c =>
        h.readV p.mem (if srcR = 1 then 0 else r) (if srcW = 1 then 0 else c))
      (.ok (), { p1 with mem := mem }, h1)
    else (.error .broadcast, p1, h)

/-- The `for other in others` loop of `merge_params`: carve `other._i`
columns from the parent and hand them to the child's `replace_mem`.
Returns the outcome together with the final parent, children and heap. -/
def Params.merge_loop (p : Params) (h : Heap) :
    List Params → Except Err Unit × Params × List Params × Heap
  | [] => (.ok (), p, [], h)
  | c :: rest =>
    match p.get_blob h c.i with
    | (.error e, p1, h1) => (.error e, p1, c :: rest, h1)
    | (.ok v, p1, h1) =>
      match c.replace_mem h1 v with
      | (.error e, c1, h2) => (.error e, p1, c1 :: rest, h2)
      | (.ok _, c1, h2) =>
        let out := Params.merge_loop p1 h2 rest
        (out.1, out.2.1, c1 :: out.2.2.1, out.2.2.2)

/-- `Params.merge_params(others)`: no-op on an empty list; fail when some
child is not resizable; size the parent upfront to
`cursor + sum(child cursor + 1)` (exact reallocation, not doubling);
freeze the parent; then run the carving loop. -/
def Params.merge_params (p : Params) (h : Heap) (others : List Params) :
    Except Err Unit × Params × List Params × Heap :=
  if others.isEmpty then (.ok (), p, others, h)
  else if (others.all fun o => o.allow_resize) = false then
    (.error .mergeFrozenChild, p, others, h)
  else
    let sizes := others.map fun o => o.i + 1
    let nr_req := p.i + sizes.sum
    let step := if p.mem.cols < nr_req then p.realloc h nr_req else (.ok (), p, h)
    match step with
    | (.error e, p1, h1) => (.error e, p1, others, h1)
    | (.ok _, p1, h1) => Params.merge_loop { p1 with allow_resize := false } h1 others

/-! ### Derived definitions and concrete example states -/

/-- Sum of the children's cursors: the total number of columns the merge
loop actually carves. -/
def sumI (l : List Params) : Nat :=
  (l.map fun c => c.i).sum

/-- The children as the merge loop leaves them: frozen, each adopting the
next `c.i`-column window of the parent's buffer, in order. -/
def carveChildren (bid off : Nat) : List Params → List Params
  | [] => []
  | c :: cs => { c with allow_resize := false, mem := ⟨bid, off, c.i⟩ }
      :: carveChildren bid (off + c.i) cs

/-- Concrete C2 trace: `Construct(8)` parent (buffer 0). -/
def c2P : Params × Heap := Params.initNonneg ⟨[]⟩ 8

/-- Child `Construct(4)` (buffer 1). -/
def c2C0 : Params × Heap := Params.initNonneg c2P.2 4

/-- Child `add("x", (2,))`: child cursor becomes 2. -/
def c2C : Except Err Blob × Params × Heap := c2C0.1.add c2C0.2 "x" [2]

/-- `parent.merge_params([child])`. -/
def c2M : Except Err Unit × Params × List Params × Heap :=
  c2P.1.merge_params c2C.2.2 [c2C.2.1]

/-- Concrete C10 trace: `Construct(2)` parent (buffer 0). -/
def c10P0 : Params × Heap := Params.initNonneg ⟨[]⟩ 2

/-- First child `Construct(2)` (buffer 1). -/
def c10C1 : Params × Heap := Params.initNonneg c10P0.2 2

/-- A first merge: succeeds and freezes the parent. -/
def c10M1 : Except Err Unit × Params × List Params × Heap :=
  c10P0.1.merge_params c10C1.2 [c10C1.1]

/-- Second child `Construct(8)` (buffer 2). -/
def c10C2a : Params × Heap := Params.initNonneg c10M1.2.2.2 8

/-- Second child `add("x", (4,))`: cursor 4, still resizable. -/
def c10C2 : Except Err Blob × Params × Heap := c10C2a.1.add c10C2a.2 "x" [4]

/-- The frozen parent merges again with the resizable second child. -/
def c10M2 : Except Err Unit × Params × List Params × Heap :=
  c10M1.2.1.merge_params c10C2.2.2 [c10C2.2.1]

/-- Concrete C3 trace: `Construct(2)` parent (buffer 0). -/
def c3P0 : Params × Heap := Params.initNonneg ⟨[]⟩ 2

/-- Child `Construct(2)` (buffer 1). -/
def c3C0 : Params × Heap := Params.initNonneg c3P0.2 2

/-- Merge freezes the parent; its buffer still has one row. -/
def c3M : Except Err Unit × Params × List Params × Heap :=
  c3P0.1.merge_params c3C0.2 [c3C0.1]

/-- `get("d_x")` on the frozen 1-row parent. -/
def c3G : Except Err (Option Blob) × Params × Heap :=
  c3M.2.1.get c3M.2.2.2 "d_x"

/-- Concrete C4 trace: `Construct(12)` parent (buffer 0). -/
def c4P : Params × Heap := Params.initNonneg ⟨[]⟩ 12

/-- First child `Construct(4)` (buffer 1). -/
def c4A0 : Params × Heap := Params.initNonneg c4P.2 4

/-- First child `add("u", (2,))`: cursor 2. -/
def c4A : Except Err Blob × Params × Heap := c4A0.1.add c4A0.2 "u" [2]

/-- Second child `Construct(3)` (buffer 2). -/
def c4B0 : Params × Heap := Params.initNonneg c4A.2.2 3

/-- Second child `add("v", (1,))`: cursor 1. -/
def c4B : Except Err Blob × Params × Heap := c4B0.1.add c4B0.2 "v" [1]

/-- `parent.merge_params([childA, childB])`. -/
def c4M : Except Err Unit × Params × List Params × Heap :=
  c4P.1.merge_params c4B.2.2 [c4A.2.1, c4B.2.1]

/-- Concrete C1 trace: `Construct(4)`. -/
def c1S0 : Params × Heap := Params.initNonneg ⟨[]⟩ 4

/-- `add("w", (1,))` — succeeds on the 1-row buffer. -/
def c1S1 : Except Err Blob × Params × Heap := c1S0.1.add c1S0.2 "w" [1]

/-- `get("d_w")` — triggers gradient-row growth to a 2-row buffer. -/
def c1S2 : Except Err (Option Blob) × Params × Heap := c1S1.2.1.get c1S1.2.2 "d_w"

/-- `add("b", (2,))` — the blob now spans 2 rows and the reshape blows up. -/
def c1S3 : Except Err Blob × Params × Heap := c1S2.2.1.add c1S2.2.2 "b" [2]

/-! ### Basic list and heap lemmas -/

theorem list_get?_append_left {α : Type} :
    ∀ (l₁ l₂ : List α) (n : Nat), n < l₁.length → (l₁ ++ l₂).get? n = l₁.get? n := by
  intro l₁
  induction l₁ with
  | nil => intro l₂ n hn; exact absurd hn (Nat.not_lt_zero n)
  | cons a t ih =>
    intro l₂ n hn
    cases n with
    | zero => rfl
    | succ m => exact ih l₂ m (Nat.lt_of_succ_lt_succ hn)

theorem list_get?_append_length {α : Type} :
    ∀ (l : List α) (b : α), (l ++ [b]).get? l.length = some b := by
  intro l
  induction l with
  | nil => intro b; rfl
  | cons a t ih => intro b; exact ih b

theorem list_get?_set_ne {α : Type} :
    ∀ (l : List α) (i j : Nat) (b : α), j ≠ i → (l.set i b).get? j = l.get? j := by
  intro l
  induction l with
  | nil => intro i j b _; rfl
  | cons a t ih =>
    intro i j b hij
    cases i with
    | zero =>
      cases j with
      | zero => exact absurd rfl hij
      | succ m => rfl
    | succ k =>
      cases j with
      | zero => rfl
      | succ m => exact ih k m b (fun hk => hij (by rw [hk]))

theorem list_get?_set_self {α : Type} :
    ∀ (l : List α) (i : Nat) (b : α), i < l.length → (l.set i b).get? i = some b := by
  intro l
  induction l with
  | nil => intro i b hi; exact absurd hi (Nat.not_lt_zero i)
  | cons a t ih =>
    intro i b hi
    cases i with
    | zero => rfl
    | succ k => exact ih k b (Nat.lt_of_succ_lt_succ hi)

theorem list_get?_some_lt {α : Type} :
    ∀ (l : List α) (j : Nat) (b : α), l.get? j = some b → j < l.length := by
  intro l
  induction l with
  | nil => intro j b hj; exact absurd hj (by simp [List.get?])
  | cons a t ih =>
    intro j b hj
    cases j with
    | zero => exact Nat.succ_pos _
    | succ m => exact Nat.succ_lt_succ (ih m b hj)

theorem Heap.alloc_length (h : Heap) (b : Buffer) :
    (h.alloc b).2.bufs.length = h.bufs.length + 1 := by
  simp [Heap.alloc]

theorem Heap.getBuf_alloc_self (h : Heap) (b : Buffer) :
    (h.alloc b).2.getBuf h.bufs.length = some b :=
  list_get?_append_length h.bufs b

theorem Heap.getBuf_alloc_lt (h : Heap) (b : Buffer) (j : Nat) (hj : j < h.bufs.length) :
    (h.alloc b).2.getBuf j = h.getBuf j :=
  list_get?_append_left h.bufs [b] j hj

theorem Heap.getBuf_lt (h : Heap) (j : Nat) (hj : j < h.bufs.length) :
    ∃ b, h.getBuf j = some b := by
  cases hg : h.getBuf j with
  | some b => exact ⟨b, rfl⟩
  | none =>
    exfalso
    unfold Heap.getBuf at hg
    rw [List.get?_eq_none] at hg
    omega

theorem Heap.getBuf_some_lt (h : Heap) (j : Nat) (b : Buffer) (hg : h.getBuf j = some b) :
    j < h.bufs.length :=
  list_get?_some_lt h.bufs j b hg

theorem Heap.readV_alloc (h : Heap) (b : Buffer) (v : View) (r c : Nat)
    (hv : v.buf < h.bufs.length) : (h.alloc b).2.readV v r c = h.readV v r c := by
  unfold Heap.readV
  rw [Heap.getBuf_alloc_lt h b v.buf hv]

theorem Heap.viewRows_alloc (h : Heap) (b : Buffer) (v : View)
    (hv : v.buf < h.bufs.length) : (h.alloc b).2.viewRows v = h.viewRows v := by
  unfold Heap.viewRows
  rw [Heap.getBuf_alloc_lt h b v.buf hv]

/-! ### Lemmas about `writeRegionV` -/

theorem Heap.writeRegionV_length (h : Heap) (v : View) (rc : Nat) (f : Nat → Nat → Val) :
    (h.writeRegionV v rc f).bufs.length = h.bufs.length := by
  unfold Heap.writeRegionV
  cases h.getBuf v.buf with
  | some b => simp
  | none => rfl

theorem Heap.getBuf_writeRegionV_ne (h : Heap) (v : View) (rc : Nat) (f : Nat → Nat → Val)
    (j : Nat) (hj : j ≠ v.buf) : (h.writeRegionV v rc f).getBuf j = h.getBuf j := by
  unfold Heap.writeRegionV
  cases h.getBuf v.buf with
  | some b => exact list_get?_set_ne h.bufs v.buf j _ hj
  | none => rfl

theorem Heap.getBuf_writeRegionV_self (h : Heap) (v : View) (rc : Nat) (f : Nat → Nat → Val)
    (b : Buffer) (hb : h.getBuf v.buf = some b) :
    (h.writeRegionV v rc f).getBuf v.buf = some (b.writeRegion rc v.off v.cols f) := by
  unfold Heap.writeRegionV
  rw [hb]
  exact list_get?_set_self h.bufs v.buf _ (h.getBuf_some_lt v.buf b hb)

theorem Heap.viewRows_writeRegionV (h : Heap) (v : View) (rc : Nat) (f : Nat → Nat → Val)
    (w : View) : (h.writeRegionV v rc f).viewRows w = h.viewRows w := by
  unfold Heap.viewRows
  by_cases hw : w.buf = v.buf
  · cases hb : h.getBuf v.buf with
    | some b =>
      rw [hw, h.getBuf_writeRegionV_self v rc f b hb, hb]
      rfl
    | none =>
      have hid : h.writeRegionV v rc f = h := by
        unfold Heap.writeRegionV
        rw [hb]
      rw [hid]
  · rw [h.getBuf_writeRegionV_ne v rc f w.buf hw]

theorem Heap.readV_writeRegionV_in (h : Heap) (v : View) (rc : Nat) (f : Nat → Nat → Val)
    (r c : Nat) (hv : v.buf < h.bufs.length) (hr : r < rc) (hc : c < v.cols) :
    (h.writeRegionV v rc f).readV v r c = f r c := by
  obtain ⟨b, hb⟩ := h.getBuf_lt v.buf hv
  unfold Heap.readV
  rw [h.getBuf_writeRegionV_self v rc f b hb]
  show (if r < rc ∧ v.off ≤ v.off + c ∧ v.off + c < v.off + v.cols
    then f r (v.off + c - v.off) else b.data r (v.off + c)) = f r c
  rw [if_pos ⟨hr, Nat.le_add_right _ _, by omega⟩]
  congr 1
  omega

theorem Heap.readV_writeRegionV_out (h : Heap) (v : View) (rc : Nat) (f : Nat → Nat → Val)
    (w : View) (r c : Nat)
    (hcond : w.buf ≠ v.buf ∨ rc ≤ r ∨ w.off + c < v.off ∨ v.off + v.cols ≤ w.off + c) :
    (h.writeRegionV v rc f).readV w r c = h.readV w r c := by
  by_cases hw : w.buf = v.buf
  · cases hb : h.getBuf v.buf with
    | some b =>
      unfold Heap.readV
      rw [hw, h.getBuf_writeRegionV_self v rc f b hb, hb]
      show (if r < rc ∧ v.off ≤ w.off + c ∧ w.off + c < v.off + v.cols
        then f r (w.off + c - v.off) else b.data r (w.off + c)) = b.data r (w.off + c)
      rw [if_neg]
      rcases hcond with hne | hge | hlt | hge'
      · exact absurd hw hne
      · intro hcontra; omega
      · intro hcontra; omega
      · intro hcontra; omega
    | none =>
      unfold Heap.readV Heap.writeRegionV
      rw [hb, hw]
  · unfold Heap.readV
    rw [h.getBuf_writeRegionV_ne v rc f w.buf hw]

/-! ### Lemmas about `writeV` (single-cell writes, for aliasing claims) -/

theorem Heap.readV_writeV_hit (h : Heap) (v₁ v₂ : View) (r c₁ c₂ : Nat) (x : Val)
    (hb : v₁.buf = v₂.buf) (hl : v₁.buf < h.bufs.length)
    (hoff : v₁.off + c₁ = v₂.off + c₂) :
    (h.writeV v₁ r c₁ x).readV v₂ r c₂ = x := by
  obtain ⟨b, hbuf⟩ := h.getBuf_lt v₁.buf hl
  have hset : (h.writeV v₁ r c₁ x).getBuf v₂.buf = some (b.writeCell r (v₁.off + c₁) x) := by
    unfold Heap.writeV
    rw [hbuf, ← hb]
    exact list_get?_set_self h.bufs v₁.buf _ hl
  unfold Heap.readV
  rw [hset]
  show (if r = r ∧ v₂.off + c₂ = v₁.off + c₁ then x else b.data r (v₂.off + c₂)) = x
  rw [if_pos ⟨rfl, hoff.symm⟩]

/-! ### Frame lemmas for single operations -/

/-- A `get` of a name without the `d_` marker returns the arena and heap
exactly as they were. -/
theorem Params.get_value_state (p : Params) (h : Heap) (name : String)
    (hn : strStartsWith name "d_" = false) :
    (p.get h name).2 = (p, h) := by
  simp [Params.get, hn]

/-- What `_realloc` does on a resizable arena whose state satisfies the
cursor invariant `cursor + 1 ≤ capacity` and whose target size is at least
`cursor + 1`: fresh buffer, committed columns copied, rest zero. -/
theorem Heap.viewRows_alloc_self (h : Heap) (b : Buffer) (o w : Nat) :
    (h.alloc b).2.viewRows ⟨h.bufs.length, o, w⟩ = b.rows := by
  show (match (h.alloc b).2.getBuf h.bufs.length with
    | some bb => bb.rows
    | none => 0) = b.rows
  rw [Heap.getBuf_alloc_self]

theorem Params.realloc_spec (p : Params) (h : Heap) (ns : Nat)
    (hres : p.allow_resize = true) (hwf : p.i + 1 ≤ p.mem.cols) (hns : p.i + 1 ≤ ns) :
    (p.realloc h ns).1 = .ok () ∧
    (p.realloc h ns).2.1 = { p with mem := ⟨h.bufs.length, 0, ns⟩ } ∧
    (p.realloc h ns).2.2.bufs.length = h.bufs.length + 1 ∧
    (p.realloc h ns).2.2.viewRows ⟨h.bufs.length, 0, ns⟩ = h.viewRows p.mem ∧
    (∀ j, j < h.bufs.length → (p.realloc h ns).2.2.getBuf j = h.getBuf j) ∧
    (∀ r c, r < h.viewRows p.mem → c < p.i + 1 →
      (p.realloc h ns).2.2.readV ⟨h.bufs.length, 0, ns⟩ r c = h.readV p.mem r c) := by
  have hdst : min (p.i + 1) ns = p.i + 1 := Nat.min_eq_left hns
  have hsrc : min (p.i + 1) p.mem.cols = p.i + 1 := Nat.min_eq_left hwf
  have hcall : p.realloc h ns = (.ok (), { p with mem := ⟨h.bufs.length, 0, ns⟩ },
      (h.alloc (Buffer.zero (h.viewRows p.mem) ns)).2.writeRegionV
        ⟨h.bufs.length, 0, p.i + 1⟩ (h.viewRows p.mem)
        (fun r c => h.readV p.mem r (if p.i + 1 = 1 then 0 else c))) := by
    unfold Params.realloc
    rw [if_neg (by simp [hres]), hdst, hsrc, if_pos (Or.inl rfl)]
    rfl
  refine ⟨by rw [hcall], by rw [hcall], ?_, ?_, ?_, ?_⟩
  · rw [hcall]
    show ((h.alloc (Buffer.zero (h.viewRows p.mem) ns)).2.writeRegionV
        ⟨h.bufs.length, 0, p.i + 1⟩ (h.viewRows p.mem)
        (fun r c => h.readV p.mem r (if p.i + 1 = 1 then 0 else c))).bufs.length
      = h.bufs.length + 1
    rw [Heap.writeRegionV_length, Heap.alloc_length]
  · rw [hcall]
    show ((h.alloc (Buffer.zero (h.viewRows p.mem) ns)).2.writeRegionV
        ⟨h.bufs.length, 0, p.i + 1⟩ (h.viewRows p.mem)
        (fun r c => h.readV p.mem r (if p.i + 1 = 1 then 0 else c))).viewRows
        ⟨h.bufs.length, 0, ns⟩ = h.viewRows p.mem
    rw [Heap.viewRows_writeRegionV, Heap.viewRows_alloc_self]
    rfl
  · intro j hj
    rw [hcall]
    show ((h.alloc (Buffer.zero (h.viewRows p.mem) ns)).2.writeRegionV
        ⟨h.bufs.length, 0, p.i + 1⟩ (h.viewRows p.mem)
        (fun r c => h.readV p.mem r (if p.i + 1 = 1 then 0 else c))).getBuf j = h.getBuf j
    rw [Heap.getBuf_writeRegionV_ne _ _ _ _ j (by show j ≠ h.bufs.length; omega),
      Heap.getBuf_alloc_lt _ _ j hj]
  · intro r c hr hc
    rw [hcall]
    show ((h.alloc (Buffer.zero (h.viewRows p.mem) ns)).2.writeRegionV
        ⟨h.bufs.length, 0, p.i + 1⟩ (h.viewRows p.mem)
        (fun r c => h.readV p.mem r (if p.i + 1 = 1 then 0 else c))).readV
        ⟨h.bufs.length, 0, p.i + 1⟩ r c = h.readV p.mem r c
    rw [Heap.readV_writeRegionV_in _ _ _ _ r c
      (by show h.bufs.length < (h.alloc (Buffer.zero (h.viewRows p.mem) ns)).2.bufs.length
          rw [Heap.alloc_length]; omega) hr hc]
    by_cases hone : p.i + 1 = 1
    · have hc0 : c = 0 := by omega
      rw [if_pos hone, hc0]
    · rw [if_neg hone]

/-- `_get_blob` when the request fits in the available columns: no
reallocation, carve `[cursor, cursor + n)`, advance the cursor. -/
theorem Params.get_blob_fit (p : Params) (h : Heap) (n : Nat)
    (hfit : p.i + 1 + n ≤ p.mem.cols) :
    p.get_blob h n = (.ok ⟨p.mem.buf, p.mem.off + p.i, n⟩, { p with i := p.i + n }, h) := by
  unfold Params.get_blob
  rw [if_neg (by omega)]
  have : min n (p.mem.cols - p.i) = n := Nat.min_eq_left (by omega)
  rw [this]

/-- `_get_blob` when the request does not fit and the arena is resizable:
exactly one doubling reallocation to `max(capacity, n) * 2`, then the carve. -/
theorem Params.get_blob_grow (p : Params) (h : Heap) (n : Nat)
    (hres : p.allow_resize = true)
    (hneed : (p.mem.cols : Int) - ((p.i : Int) + 1) < (n : Int))
    (hwf : p.i + 1 ≤ p.mem.cols) :
    p.get_blob h n =
      (.ok ⟨h.bufs.length, p.i, min n (max p.mem.cols n * 2 - p.i)⟩,
       { p with mem := ⟨h.bufs.length, 0, max p.mem.cols n * 2⟩, i := p.i + n },
       (p.realloc h (max p.mem.cols n * 2)).2.2) := by
  have hns : p.i + 1 ≤ max p.mem.cols n * 2 := by
    have := Nat.le_max_left p.mem.cols n
    omega
  obtain ⟨hok, hp, -, -, -, -⟩ := Params.realloc_spec p h (max p.mem.cols n * 2) hres hwf hns
  have htup : p.realloc h (max p.mem.cols n * 2) =
      (.ok (), (p.realloc h (max p.mem.cols n * 2)).2.1,
        (p.realloc h (max p.mem.cols n * 2)).2.2) := by
    rw [← hok]
  unfold Params.get_blob
  rw [if_pos hneed, htup, hp]
  simp

theorem Heap.readV_alloc_self (h : Heap) (b : Buffer) (o w r c : Nat) :
    (h.alloc b).2.readV ⟨h.bufs.length, o, w⟩ r c = b.data r (o + c) := by
  show (match (h.alloc b).2.getBuf h.bufs.length with
    | some bb => bb.data r (o + c)
    | none => 0) = b.data r (o + c)
  rw [Heap.getBuf_alloc_self]

/-- What `_alloc_gradients` does: fresh 2-row buffer of the same column
width, row 0 copied in full, row 1 zero, directory/cursor/flag untouched. -/
theorem Params.alloc_gradients_spec (p : Params) (h : Heap) :
    (p.alloc_gradients h).1 = { p with mem := ⟨h.bufs.length, 0, p.mem.cols⟩ } ∧
    (p.alloc_gradients h).2.bufs.length = h.bufs.length + 1 ∧
    (p.alloc_gradients h).2.viewRows ⟨h.bufs.length, 0, p.mem.cols⟩ = 2 ∧
    (∀ c, c < p.mem.cols →
      (p.alloc_gradients h).2.readV ⟨h.bufs.length, 0, p.mem.cols⟩ 0 c = h.readV p.mem 0 c) ∧
    (∀ c, (p.alloc_gradients h).2.readV ⟨h.bufs.length, 0, p.mem.cols⟩ 1 c = 0) ∧
    (∀ j, j < h.bufs.length → (p.alloc_gradients h).2.getBuf j = h.getBuf j) := by
  have hcall : p.alloc_gradients h = ({ p with mem := ⟨h.bufs.length, 0, p.mem.cols⟩ },
      (h.alloc (Buffer.zero 2 p.mem.cols)).2.writeRegionV ⟨h.bufs.length, 0, p.mem.cols⟩ 1
        (fun _ c => h.readV p.mem 0 c)) := by
    unfold Params.alloc_gradients
    rfl
  refine ⟨by rw [hcall], ?_, ?_, ?_, ?_, ?_⟩
  · rw [hcall]
    show ((h.alloc (Buffer.zero 2 p.mem.cols)).2.writeRegionV ⟨h.bufs.length, 0, p.mem.cols⟩ 1
      (fun _ c => h.readV p.mem 0 c)).bufs.length = h.bufs.length + 1
    rw [Heap.writeRegionV_length, Heap.alloc_length]
  · rw [hcall]
    show ((h.alloc (Buffer.zero 2 p.mem.cols)).2.writeRegionV ⟨h.bufs.length, 0, p.mem.cols⟩ 1
      (fun _ c => h.readV p.mem 0 c)).viewRows ⟨h.bufs.length, 0, p.mem.cols⟩ = 2
    rw [Heap.viewRows_writeRegionV, Heap.viewRows_alloc_self]
    rfl
  · intro c hc
    rw [hcall]
    show ((h.alloc (Buffer.zero 2 p.mem.cols)).2.writeRegionV ⟨h.bufs.length, 0, p.mem.cols⟩ 1
      (fun _ c => h.readV p.mem 0 c)).readV ⟨h.bufs.length, 0, p.mem.cols⟩ 0 c
      = h.readV p.mem 0 c
    rw [Heap.readV_writeRegionV_in (h.alloc (Buffer.zero 2 p.mem.cols)).2
      ⟨h.bufs.length, 0, p.mem.cols⟩ 1 (fun _ c => h.readV p.mem 0 c) 0 c
      (by show h.bufs.length < (h.alloc (Buffer.zero 2 p.mem.cols)).2.bufs.length
          rw [Heap.alloc_length]; omega)
      (by omega) hc]
  · intro c
    rw [hcall]
    show ((h.alloc (Buffer.zero 2 p.mem.cols)).2.writeRegionV ⟨h.bufs.length, 0, p.mem.cols⟩ 1
      (fun _ c => h.readV p.mem 0 c)).readV ⟨h.bufs.length, 0, p.mem.cols⟩ 1 c = 0
    rw [Heap.readV_writeRegionV_out _ _ _ _ _ 1 c (Or.inr (Or.inl (by omega))),
      Heap.readV_alloc_self]
    rfl
  · intro j hj
    rw [hcall]
    show ((h.alloc (Buffer.zero 2 p.mem.cols)).2.writeRegionV ⟨h.bufs.length, 0, p.mem.cols⟩ 1
      (fun _ c => h.readV p.mem 0 c)).getBuf j = h.getBuf j
    rw [Heap.getBuf_writeRegionV_ne _ _ _ _ j (by show j ≠ h.bufs.length; omega),
      Heap.getBuf_alloc_lt _ _ j hj]

/-- The state `add` leaves behind is exactly the state of its inner
`_get_blob` call (the final reshape only affects the returned value). -/
theorem Params.add_state (p : Params) (h : Heap) (name : String) (shape : List Nat) :
    (p.add h name shape).2 =
      ({ p with offsets := setOff p.offsets name (p.i, shape) }.get_blob h shape.prod).2 := by
  simp only [Params.add]
  rcases hgb : { p with offsets := setOff p.offsets name (p.i, shape) }.get_blob h shape.prod
    with ⟨res, p2, h2⟩
  rw [hgb]
  cases res with
  | error e => rfl
  | ok v =>
    show (if h2.viewRows v * v.cols = shape.prod then ((.ok ⟨v, 0, shape⟩ : Except Err Blob), p2, h2)
      else (.error .reshape, p2, h2)).2 = (p2, h2)
    split <;> rfl

/-- Insert-or-replace keeps every other directory entry unchanged. -/
theorem lookupOff_setOff_ne (l : List (String × Nat × List Nat)) (n m : String)
    (v : Nat × List Nat) (hm : m ≠ n) :
    lookupOff (setOff l n v) m = lookupOff l m := by
  show (if n = m then some v else lookupOff (l.filter fun e => !(e.1 == n)) m) = lookupOff l m
  rw [if_neg (fun hh => hm hh.symm)]
  induction l with
  | nil => rfl
  | cons a t ih =>
    by_cases ha : a.1 = n
    · have hfa : ((a :: t).filter fun e => !(e.1 == n)) = t.filter fun e => !(e.1 == n) := by
        simp [List.filter_cons, ha]
      rw [hfa, ih]
      show _ = (if a.1 = m then some a.2 else lookupOff t m)
      rw [if_neg (by rw [ha]; exact fun hh => hm hh.symm)]
    · have hfa : ((a :: t).filter fun e => !(e.1 == n))
          = a :: (t.filter fun e => !(e.1 == n)) := by
        simp [List.filter_cons, ha]
      rw [hfa]
      show (if a.1 = m then some a.2 else lookupOff (t.filter fun e => !(e.1 == n)) m)
        = (if a.1 = m then some a.2 else lookupOff t m)
      by_cases ham : a.1 = m
      · rw [if_pos ham, if_pos ham]
      · rw [if_neg ham, if_neg ham]
        exact ih

/-- The new name is looked up at the pre-add cursor with the given shape. -/
theorem lookupOff_setOff_self (l : List (String × Nat × List Nat)) (n : String)
    (v : Nat × List Nat) : lookupOff (setOff l n v) n = some v := by
  show (if n = n then some v else _) = some v
  rw [if_pos rfl]

/-! ### Merge machinery -/

theorem sumI_nil : sumI [] = 0 := rfl

theorem sumI_cons (c : Params) (t : List Params) : sumI (c :: t) = c.i + sumI t := by
  simp [sumI]

theorem sizes_sum (t : List Params) : (t.map fun o => o.i + 1).sum = sumI t + t.length := by
  induction t with
  | nil => rfl
  | cons c rest ih =>
    simp only [List.map_cons, List.sum_cons, List.length_cons, sumI_cons, ih]
    omega

theorem Heap.readV_congr_getBuf (h₁ h₂ : Heap) (w : View) (r c : Nat)
    (hg : h₁.getBuf w.buf = h₂.getBuf w.buf) : h₁.readV w r c = h₂.readV w r c := by
  unfold Heap.readV
  rw [hg]

theorem Heap.viewRows_congr_getBuf (h₁ h₂ : Heap) (w : View)
    (hg : h₁.getBuf w.buf = h₂.getBuf w.buf) : h₁.viewRows w = h₂.viewRows w := by
  unfold Heap.viewRows
  rw [hg]

/-- Re-baseline a per-child content statement from an intermediate heap to
an older one, given that the children's own buffers read the same in both. -/
theorem forall2_content_transfer (hFin hMid hOld : Heap) :
    ∀ (l l' : List Params),
    (∀ x ∈ l, ∀ r cc, hMid.readV x.mem r cc = hOld.readV x.mem r cc) →
    List.Forall₂ (fun a b => ∀ cc, cc < a.i → hFin.readV b.mem 0 cc = hMid.readV a.mem 0 cc) l l' →
    List.Forall₂ (fun a b => ∀ cc, cc < a.i → hFin.readV b.mem 0 cc = hOld.readV a.mem 0 cc) l l' := by
  intro l
  induction l with
  | nil =>
    intro l' _ hf
    cases hf
    exact List.Forall₂.nil
  | cons a t ih =>
    intro l' hmem hf
    cases hf with
    | cons hab htail =>
      exact List.Forall₂.cons
        (fun cc hcc => (hab cc hcc).trans (hmem a (List.mem_cons_self a t) 0 cc))
        (ih _ (fun x hx => hmem x (List.mem_cons_of_mem a hx)) htail)

/-- What `replace_mem` does on a resizable child with the straight
(non-broadcast) copy: freeze, copy the committed columns into the handed
window, adopt it; only the window's buffer changes, and only inside the
window. -/
theorem Params.replace_mem_spec (c : Params) (h : Heap) (v : View)
    (hres : c.allow_resize = true) (hwf : c.i ≤ c.mem.cols) (hW : v.cols = c.i)
    (hrows : h.viewRows c.mem = h.viewRows v ∨ h.viewRows c.mem = 1)
    (hvb : v.buf < h.bufs.length) (hR : 1 ≤ h.viewRows v) :
    (c.replace_mem h v).1 = .ok () ∧
    (c.replace_mem h v).2.1 = { c with allow_resize := false, mem := v } ∧
    (c.replace_mem h v).2.2.bufs.length = h.bufs.length ∧
    (∀ j, j ≠ v.buf → (c.replace_mem h v).2.2.getBuf j = h.getBuf j) ∧
    (∀ w, (c.replace_mem h v).2.2.viewRows w = h.viewRows w) ∧
    (∀ w r cc, (w.buf ≠ v.buf ∨ h.viewRows v ≤ r ∨ w.off + cc < v.off ∨
        v.off + v.cols ≤ w.off + cc) →
      (c.replace_mem h v).2.2.readV w r cc = h.readV w r cc) ∧
    (∀ cc, cc < c.i → (c.replace_mem h v).2.2.readV v 0 cc = h.readV c.mem 0 cc) := by
  have hsrcW : min c.i c.mem.cols = c.i := Nat.min_eq_left hwf
  have hcompat : (h.viewRows c.mem = h.viewRows v ∨ h.viewRows c.mem = 1) ∧
      (min c.i c.mem.cols = v.cols ∨ min c.i c.mem.cols = 1) :=
    ⟨hrows, Or.inl (by rw [hsrcW, hW])⟩
  have hcall : c.replace_mem h v = (.ok (), { c with allow_resize := false, mem := v },
      h.writeRegionV v (h.viewRows v) (fun r cc =>
        h.readV c.mem (if h.viewRows c.mem = 1 then 0 else r)
          (if min c.i c.mem.cols = 1 then 0 else cc))) := by
    simp only [Params.replace_mem, hres]
    rw [if_neg (by simp), if_pos hcompat]
  refine ⟨by rw [hcall], by rw [hcall], ?_, ?_, ?_, ?_, ?_⟩
  · rw [hcall]
    exact Heap.writeRegionV_length h v _ _
  · intro j hj
    rw [hcall]
    exact Heap.getBuf_writeRegionV_ne h v _ _ j hj
  · intro w
    rw [hcall]
    exact Heap.viewRows_writeRegionV h v _ _ w
  · intro w r cc hcond
    rw [hcall]
    exact Heap.readV_writeRegionV_out h v _ _ w r cc hcond
  · intro cc hcc
    rw [hcall]
    rw [Heap.readV_writeRegionV_in h v (h.viewRows v)
      (fun r cc => h.readV c.mem (if h.viewRows c.mem = 1 then 0 else r)
        (if min c.i c.mem.cols = 1 then 0 else cc)) 0 cc hvb (by omega) (by omega)]
    rw [ite_self]
    by_cases hone : min c.i c.mem.cols = 1
    · have hcc0 : cc = 0 := by omega
      rw [if_pos hone, hcc0]
    · rw [if_neg hone]

/-- The merge loop, when every child is resizable, the parent has room
for every carve plus the guard column, and rows are compatible: it
succeeds, advances the parent's cursor by the sum of the children's
cursors, hands each child in order its `c.i`-column window of the
parent's buffer, writes only inside the carved span of the parent's
buffer, and lands each child's committed row-0 content in its window. -/
theorem Params.merge_loop_spec :
    ∀ (t : List Params) (p : Params) (h : Heap),
    (∀ c ∈ t, c.allow_resize = true) →
    (∀ c ∈ t, c.i ≤ c.mem.cols) →
    (∀ c ∈ t, h.viewRows c.mem = h.viewRows p.mem ∨ h.viewRows c.mem = 1) →
    (∀ c ∈ t, c.mem.buf ≠ p.mem.buf) →
    p.i + 1 + sumI t ≤ p.mem.cols →
    1 ≤ h.viewRows p.mem →
    p.mem.buf < h.bufs.length →
    (p.merge_loop h t).1 = .ok () ∧
    (p.merge_loop h t).2.1 = { p with i := p.i + sumI t } ∧
    (p.merge_loop h t).2.2.1 = carveChildren p.mem.buf (p.mem.off + p.i) t ∧
    (p.merge_loop h t).2.2.2.bufs.length = h.bufs.length ∧
    (∀ j, j ≠ p.mem.buf → (p.merge_loop h t).2.2.2.getBuf j = h.getBuf j) ∧
    (∀ w, (p.merge_loop h t).2.2.2.viewRows w = h.viewRows w) ∧
    (∀ w r cc, (w.buf ≠ p.mem.buf ∨ w.off + cc < p.mem.off + p.i ∨
        p.mem.off + p.i + sumI t ≤ w.off + cc ∨ h.viewRows p.mem ≤ r) →
      (p.merge_loop h t).2.2.2.readV w r cc = h.readV w r cc) ∧
    List.Forall₂ (fun a b => ∀ cc, cc < a.i →
      (p.merge_loop h t).2.2.2.readV b.mem 0 cc = h.readV a.mem 0 cc)
      t (carveChildren p.mem.buf (p.mem.off + p.i) t) := by
  intro t
  induction t with
  | nil =>
    intro p h _ _ _ _ _ _ _
    exact ⟨rfl, rfl, rfl, rfl, fun j _ => rfl, fun w => rfl, fun w r cc _ => rfl,
      List.Forall₂.nil⟩
  | cons c rest ih =>
    intro p h hall hwfc hrows hbuf hcap hR hpb
    have hsum := sumI_cons c rest
    have hcR : c.allow_resize = true := hall c (List.mem_cons_self c rest)
    have hcwf : c.i ≤ c.mem.cols := hwfc c (List.mem_cons_self c rest)
    have hgb : p.get_blob h c.i
        = (.ok ⟨p.mem.buf, p.mem.off + p.i, c.i⟩, { p with i := p.i + c.i }, h) :=
      Params.get_blob_fit p h c.i (by omega)
    obtain ⟨hrm1, hrm2, hrmlen, hrmget, hrmrows, hrmframe, hrmread⟩ :=
      Params.replace_mem_spec c h ⟨p.mem.buf, p.mem.off + p.i, c.i⟩ hcR hcwf rfl
        (hrows c (List.mem_cons_self c rest)) hpb hR
    rcases hx : c.replace_mem h ⟨p.mem.buf, p.mem.off + p.i, c.i⟩ with ⟨res, c1, hMid⟩
    rw [hx] at hrm1 hrm2 hrmlen hrmget hrmrows hrmframe hrmread
    have hok : res = .ok () := hrm1
    have hc1e :
        c1 = { c with allow_resize := false, mem := ⟨p.mem.buf, p.mem.off + p.i, c.i⟩ } :=
      hrm2
    subst hok
    subst hc1e
    have hlenM : hMid.bufs.length = h.bufs.length := hrmlen
    have hgetM : ∀ j, j ≠ p.mem.buf → hMid.getBuf j = h.getBuf j :=
      fun j hj => hrmget j hj
    have hrowsM : ∀ w, hMid.viewRows w = h.viewRows w := fun w => hrmrows w
    have hframeM : ∀ w r cc, (w.buf ≠ p.mem.buf ∨ h.viewRows p.mem ≤ r ∨
        w.off + cc < p.mem.off + p.i ∨ p.mem.off + p.i + c.i ≤ w.off + cc) →
        hMid.readV w r cc = h.readV w r cc :=
      fun w r cc hcond => hrmframe w r cc hcond
    have hreadM : ∀ cc, cc < c.i →
        hMid.readV ⟨p.mem.buf, p.mem.off + p.i, c.i⟩ 0 cc = h.readV c.mem 0 cc :=
      fun cc hcc => hrmread cc hcc
    obtain ⟨IH1, IH2, IH3, IH4, IH5, IH6, IH7, IH8⟩ :=
      ih { p with i := p.i + c.i } hMid
        (fun x hx2 => hall x (List.mem_cons_of_mem c hx2))
        (fun x hx2 => hwfc x (List.mem_cons_of_mem c hx2))
        (fun x hx2 => by
          simp only [hrowsM]
          exact hrows x (List.mem_cons_of_mem c hx2))
        (fun x hx2 => hbuf x (List.mem_cons_of_mem c hx2))
        (by show p.i + c.i + 1 + sumI rest ≤ p.mem.cols; omega)
        (by rw [hrowsM]; exact hR)
        (by rw [hlenM]; exact hpb)
    have hstep : p.merge_loop h (c :: rest) =
        ((Params.merge_loop { p with i := p.i + c.i } hMid rest).1,
         (Params.merge_loop { p with i := p.i + c.i } hMid rest).2.1,
         { c with allow_resize := false, mem := ⟨p.mem.buf, p.mem.off + p.i, c.i⟩ }
           :: (Params.merge_loop { p with i := p.i + c.i } hMid rest).2.2.1,
         (Params.merge_loop { p with i := p.i + c.i } hMid rest).2.2.2) := by
      simp only [Params.merge_loop, hgb, hx]
    have hB1 : (p.merge_loop h (c :: rest)).1
        = (Params.merge_loop { p with i := p.i + c.i } hMid rest).1 := by rw [hstep]
    have hB2 : (p.merge_loop h (c :: rest)).2.1
        = (Params.merge_loop { p with i := p.i + c.i } hMid rest).2.1 := by rw [hstep]
    have hB3 : (p.merge_loop h (c :: rest)).2.2.1
        = { c with allow_resize := false, mem := ⟨p.mem.buf, p.mem.off + p.i, c.i⟩ }
          :: (Params.merge_loop { p with i := p.i + c.i } hMid rest).2.2.1 := by rw [hstep]
    have hB4 : (p.merge_loop h (c :: rest)).2.2.2
        = (Params.merge_loop { p with i := p.i + c.i } hMid rest).2.2.2 := by rw [hstep]
    have hlist : carveChildren ({ p with i := p.i + c.i } : Params).mem.buf
        (({ p with i := p.i + c.i } : Params).mem.off + ({ p with i := p.i + c.i } : Params).i)
        rest = carveChildren p.mem.buf (p.mem.off + p.i + c.i) rest := by
      show carveChildren p.mem.buf (p.mem.off + (p.i + c.i)) rest = _
      rw [← Nat.add_assoc]
    refine ⟨?_, ?_, ?_, ?_, ?_, ?_, ?_, ?_⟩
    · rw [hB1]
      exact IH1
    · rw [hB2, IH2]
      show Params.mk p.mem p.offsets (p.i + c.i + sumI rest) p.allow_resize
        = Params.mk p.mem p.offsets (p.i + sumI (c :: rest)) p.allow_resize
      rw [hsum, ← Nat.add_assoc]
    · rw [hB3, IH3, hlist]
      rfl
    · rw [hB4, IH4]
      exact hlenM
    · intro j hj
      rw [hB4, IH5 j hj]
      exact hgetM j hj
    · intro w
      rw [hB4, IH6 w]
      exact hrowsM w
    · intro w r cc hcond
      rw [hB4]
      have hcond1 : w.buf ≠ p.mem.buf ∨
          w.off + cc < p.mem.off + (p.i + c.i) ∨
          p.mem.off + (p.i + c.i) + sumI rest ≤ w.off + cc ∨
          hMid.viewRows p.mem ≤ r := by
        rcases hcond with h1 | h2 | h3 | h4
        · exact Or.inl h1
        · exact Or.inr (Or.inl (by omega))
        · exact Or.inr (Or.inr (Or.inl (by omega)))
        · exact Or.inr (Or.inr (Or.inr (by rw [hrowsM]; exact h4)))
      rw [IH7 w r cc hcond1]
      apply hframeM w r cc
      rcases hcond with h1 | h2 | h3 | h4
      · exact Or.inl h1
      · exact Or.inr (Or.inr (Or.inl h2))
      · exact Or.inr (Or.inr (Or.inr (by omega)))
      · exact Or.inr (Or.inl h4)
    · show List.Forall₂ (fun a b => ∀ cc, cc < a.i →
          (p.merge_loop h (c :: rest)).2.2.2.readV b.mem 0 cc = h.readV a.mem 0 cc)
        (c :: rest)
        ({ c with allow_resize := false, mem := ⟨p.mem.buf, p.mem.off + p.i, c.i⟩ }
          :: carveChildren p.mem.buf (p.mem.off + p.i + c.i) rest)
      refine List.Forall₂.cons ?_ ?_
      · intro cc hcc
        show (p.merge_loop h (c :: rest)).2.2.2.readV ⟨p.mem.buf, p.mem.off + p.i, c.i⟩ 0 cc
          = h.readV c.mem 0 cc
        rw [hB4]
        rw [IH7 ⟨p.mem.buf, p.mem.off + p.i, c.i⟩ 0 cc
          (Or.inr (Or.inl (by show p.mem.off + p.i + cc < p.mem.off + (p.i + c.i); omega)))]
        exact hreadM cc hcc
      · rw [hlist] at IH8
        have htrans := forall2_content_transfer
          (Params.merge_loop { p with i := p.i + c.i } hMid rest).2.2.2 hMid h rest _
          (fun x hx2 r cc => hframeM x.mem r cc
            (Or.inl (hbuf x (List.mem_cons_of_mem c hx2))))
          IH8
        rw [← hB4] at htrans
        exact htrans

/-- `merge_params` on a non-empty all-resizable list of children, with
well-formed parent and children (cursor invariant, live distinct buffers,
compatible row counts) and a parent that is either still resizable or
already wide enough: the merge succeeds; the parent ends frozen with its
cursor advanced by the sum of the children's cursors and its directory
intact; the children are exactly the in-order carve of the parent's
buffer, each child's window holding its old committed row-0 content. -/
theorem Params.merge_params_spec (p : Params) (h : Heap) (t : List Params)
    (hne : t ≠ [])
    (hall : ∀ c ∈ t, c.allow_resize = true)
    (hwfc : ∀ c ∈ t, c.i ≤ c.mem.cols)
    (hrows : ∀ c ∈ t, h.viewRows c.mem = h.viewRows p.mem ∨ h.viewRows c.mem = 1)
    (hbufne : ∀ c ∈ t, c.mem.buf ≠ p.mem.buf)
    (hbuflt : ∀ c ∈ t, c.mem.buf < h.bufs.length)
    (hwfp : p.i + 1 ≤ p.mem.cols)
    (hpb : p.mem.buf < h.bufs.length)
    (hR : 1 ≤ h.viewRows p.mem)
    (hok : p.allow_resize = true ∨ p.i + (t.map fun o => o.i + 1).sum ≤ p.mem.cols) :
    (p.merge_params h t).1 = .ok () ∧
    (p.merge_params h t).2.1.allow_resize = false ∧
    (p.merge_params h t).2.1.i = p.i + sumI t ∧
    (p.merge_params h t).2.1.offsets = p.offsets ∧
    p.i + 1 + sumI t ≤ (p.merge_params h t).2.1.mem.cols ∧
    (p.merge_params h t).2.1.mem.buf < (p.merge_params h t).2.2.2.bufs.length ∧
    (p.merge_params h t).2.2.1
      = carveChildren (p.merge_params h t).2.1.mem.buf
          ((p.merge_params h t).2.1.mem.off + p.i) t ∧
    List.Forall₂ (fun a b => ∀ cc, cc < a.i →
      (p.merge_params h t).2.2.2.readV b.mem 0 cc = h.readV a.mem 0 cc)
      t (p.merge_params h t).2.2.1 := by
  have hemp : t.isEmpty = false := by
    cases t with
    | nil => exact absurd rfl hne
    | cons a b => rfl
  have halltrue : (t.all fun o => o.allow_resize) = true :=
    List.all_eq_true.mpr (fun x hx => hall x hx)
  have hsz := sizes_sum t
  have hlen1 : 1 ≤ t.length := by
    cases t with
    | nil => exact absurd rfl hne
    | cons a b => simp
  by_cases hgrow : p.mem.cols < p.i + (t.map fun o => o.i + 1).sum
  · -- upfront exact reallocation to the total required width
    have hres : p.allow_resize = true := by
      rcases hok with h1 | h1
      · exact h1
      · omega
    obtain ⟨r1, r2, r3, r4, r5, -⟩ :=
      Params.realloc_spec p h (p.i + (t.map fun o => o.i + 1).sum) hres hwfp (by omega)
    rcases hy : p.realloc h (p.i + (t.map fun o => o.i + 1).sum) with ⟨resR, p2, h2⟩
    rw [hy] at r1 r2 r3 r4 r5
    have hres2 : resR = .ok () := r1
    have hp2 :
        p2 = { p with mem := ⟨h.bufs.length, 0, p.i + (t.map fun o => o.i + 1).sum⟩ } :=
      r2
    subst hres2
    subst hp2
    have r3' : h2.bufs.length = h.bufs.length + 1 := r3
    have r4' : h2.viewRows ⟨h.bufs.length, 0, p.i + (t.map fun o => o.i + 1).sum⟩
        = h.viewRows p.mem := r4
    have r5' : ∀ j, j < h.bufs.length → h2.getBuf j = h.getBuf j := fun j hj => r5 j hj
    have hcall : p.merge_params h t = Params.merge_loop
        (⟨⟨h.bufs.length, 0, p.i + (t.map fun o => o.i + 1).sum⟩, p.offsets, p.i, false⟩ : Params)
        h2 t := by
      simp only [Params.merge_params]
      rw [if_neg (by simp [hemp]), if_neg (by simp [halltrue]), if_pos hgrow, hy]
    obtain ⟨L1, L2, L3, L4, L5, L6, L7, L8⟩ :=
      Params.merge_loop_spec t
        (⟨⟨h.bufs.length, 0, p.i + (t.map fun o => o.i + 1).sum⟩, p.offsets, p.i, false⟩ : Params)
        h2
        hall hwfc
        (fun c hc => by
          have e1 : h2.viewRows c.mem = h.viewRows c.mem :=
            Heap.viewRows_congr_getBuf h2 h c.mem (r5' c.mem.buf (hbuflt c hc))
          have e2 : h2.viewRows ((⟨⟨h.bufs.length, 0, p.i + (t.map fun o => o.i + 1).sum⟩, p.offsets, p.i, false⟩ : Params) : Params).mem = h.viewRows p.mem := r4'
          rw [e1, e2]
          exact hrows c hc)
        (fun c hc => by
          show c.mem.buf ≠ h.bufs.length
          have := hbuflt c hc
          omega)
        (by show p.i + 1 + sumI t ≤ p.i + (t.map fun o => o.i + 1).sum; omega)
        (by
          have e2 : h2.viewRows ((⟨⟨h.bufs.length, 0, p.i + (t.map fun o => o.i + 1).sum⟩, p.offsets, p.i, false⟩ : Params) : Params).mem = h.viewRows p.mem := r4'
          rw [e2]
          exact hR)
        (by show h.bufs.length < h2.bufs.length; omega)
    refine ⟨?_, ?_, ?_, ?_, ?_, ?_, ?_, ?_⟩
    · rw [hcall]
      exact L1
    · rw [hcall, L2]
    · rw [hcall, L2]
    · rw [hcall, L2]
    · rw [hcall, L2]
      show p.i + 1 + sumI t ≤ p.i + (t.map fun o => o.i + 1).sum
      omega
    · rw [hcall, L2, L4]
      show h.bufs.length < h2.bufs.length
      omega
    · rw [hcall, L2, L3]
    · have hmemEq : ∀ x ∈ t, ∀ r cc, h2.readV x.mem r cc = h.readV x.mem r cc :=
        fun x hx r cc => Heap.readV_congr_getBuf h2 h x.mem r cc (r5' x.mem.buf (hbuflt x hx))
      have L8' := forall2_content_transfer
        (Params.merge_loop (⟨⟨h.bufs.length, 0, p.i + (t.map fun o => o.i + 1).sum⟩, p.offsets, p.i, false⟩ : Params) h2 t).2.2.2 h2 h t _ hmemEq L8
      rw [hcall, L3]
      exact L8'
  · -- parent already wide enough: no reallocation
    have hcall : p.merge_params h t
        = Params.merge_loop { p with allow_resize := false } h t := by
      simp only [Params.merge_params]
      rw [if_neg (by simp [hemp]), if_neg (by simp [halltrue]), if_neg hgrow]
    obtain ⟨L1, L2, L3, L4, L5, L6, L7, L8⟩ :=
      Params.merge_loop_spec t { p with allow_resize := false } h
        hall hwfc
        (fun c hc => hrows c hc)
        (fun c hc => hbufne c hc)
        (by show p.i + 1 + sumI t ≤ p.mem.cols; omega)
        hR hpb
    refine ⟨?_, ?_, ?_, ?_, ?_, ?_, ?_, ?_⟩
    · rw [hcall]
      exact L1
    · rw [hcall, L2]
    · rw [hcall, L2]
    · rw [hcall, L2]
    · rw [hcall, L2]
      show p.i + 1 + sumI t ≤ p.mem.cols
      omega
    · rw [hcall, L2, L4]
      exact hpb
    · rw [hcall, L2, L3]
    · rw [hcall, L3]
      exact L8

/-- A frozen arena's `_realloc` raises immediately, touching nothing. -/
theorem Params.realloc_frozen (p : Params) (h : Heap) (ns : Nat)
    (hf : p.allow_resize = false) :
    p.realloc h ns = (.error .notResizable, p, h) := by
  unfold Params.realloc
  rw [if_pos hf]

/-- `_realloc` raises `notResizable` only on a frozen arena; otherwise it
either succeeds (adopting a fresh buffer of the requested width, same
cursor, directory and flag) or raises the numpy broadcast error leaving
the object untouched. -/
theorem Params.realloc_cases (p : Params) (h : Heap) (ns : Nat) :
    (p.allow_resize = false ∧ p.realloc h ns = (.error .notResizable, p, h)) ∨
    ((p.realloc h ns).1 = .error .broadcast ∧ (p.realloc h ns).2.1 = p) ∨
    ((p.realloc h ns).1 = .ok () ∧
      (p.realloc h ns).2.1 = { p with mem := ⟨h.bufs.length, 0, ns⟩ }) := by
  by_cases hf : p.allow_resize = false
  · exact Or.inl ⟨hf, p.realloc_frozen h ns hf⟩
  · simp only [Params.realloc, if_neg hf]
    by_cases hcp : min (p.i + 1) p.mem.cols = min (p.i + 1) ns ∨ min (p.i + 1) p.mem.cols = 1
    · rw [if_pos hcp]
      exact Or.inr (Or.inr ⟨rfl, rfl⟩)
    · rw [if_neg hcp]
      exact Or.inr (Or.inl ⟨rfl, rfl⟩)

/-- `replace_mem` can raise only the frozen-child error or the numpy
broadcast error, never `notResizable`. -/
theorem Params.replace_mem_no_notResizable (c : Params) (h : Heap) (v : View) :
    (c.replace_mem h v).1 ≠ .error .notResizable := by
  unfold Params.replace_mem
  by_cases hf : c.allow_resize = false
  · rw [if_pos hf]
    intro hcontra
    exact Err.noConfusion (Except.error.inj hcontra)
  · rw [if_neg hf]
    simp only
    split
    · intro hcontra
      exact Except.noConfusion hcontra
    · intro hcontra
      exact Err.noConfusion (Except.error.inj hcontra)

/-- `_get_blob` on a frozen arena never changes the backing view (it
either carves in place or aborts before replacing the buffer), and leaves
the flag frozen and the heap unchanged. -/
theorem Params.get_blob_frozen (p : Params) (h : Heap) (n : Nat)
    (hf : p.allow_resize = false) :
    (p.get_blob h n).2.1.mem = p.mem ∧ (p.get_blob h n).2.1.allow_resize = false ∧
    (p.get_blob h n).2.2 = h := by
  simp only [Params.get_blob]
  by_cases hav : (p.mem.cols : Int) - ((p.i : Int) + 1) < (n : Int)
  · rw [if_pos hav, p.realloc_frozen h (max p.mem.cols n * 2) hf]
    exact ⟨rfl, hf, rfl⟩
  · rw [if_neg hav]
    exact ⟨rfl, hf, rfl⟩

/-- The merge loop, whatever happens inside it, never changes the
parent's backing view once the parent is frozen, and keeps it frozen. -/
theorem Params.merge_loop_frozen_mem :
    ∀ (t : List Params) (p : Params) (h : Heap), p.allow_resize = false →
    (p.merge_loop h t).2.1.mem = p.mem ∧ (p.merge_loop h t).2.1.allow_resize = false := by
  intro t
  induction t with
  | nil => exact fun p h hf => ⟨rfl, hf⟩
  | cons c rest ih =>
    intro p h hf
    obtain ⟨hgm, hgf, -⟩ := p.get_blob_frozen h c.i hf
    rcases hgb : p.get_blob h c.i with ⟨res, p1, h1⟩
    rw [hgb] at hgm hgf
    have hgm' : p1.mem = p.mem := hgm
    have hgf' : p1.allow_resize = false := hgf
    cases res with
    | error e =>
      have : (p.merge_loop h (c :: rest)).2.1 = p1 := by
        simp only [Params.merge_loop, hgb]
      rw [this]
      exact ⟨hgm', hgf'⟩
    | ok v =>
      rcases hrm : c.replace_mem h1 v with ⟨res2, c1, h2⟩
      cases res2 with
      | error e =>
        have : (p.merge_loop h (c :: rest)).2.1 = p1 := by
          simp only [Params.merge_loop, hgb, hrm]
        rw [this]
        exact ⟨hgm', hgf'⟩
      | ok u =>
        have : (p.merge_loop h (c :: rest)).2.1 = (Params.merge_loop p1 h2 rest).2.1 := by
          simp only [Params.merge_loop, hgb, hrm]
        rw [this]
        obtain ⟨e1, e2⟩ := ih p1 h2 hgf'
        rw [e1, e2, hgm']
        exact ⟨rfl, rfl⟩

/-- `merge_params` never changes a frozen parent's backing view. -/
theorem Params.merge_params_frozen_mem (p : Params) (h : Heap) (t : List Params)
    (hf : p.allow_resize = false) :
    (p.merge_params h t).2.1.mem = p.mem := by
  simp only [Params.merge_params]
  by_cases hemp : t.isEmpty = true
  · rw [if_pos hemp]
  · rw [if_neg hemp]
    by_cases hallf : (t.all fun o => o.allow_resize) = false
    · rw [if_pos hallf]
    · rw [if_neg hallf]
      by_cases hgrow : p.mem.cols < p.i + (t.map fun o => o.i + 1).sum
      · rw [if_pos hgrow, p.realloc_frozen h _ hf]
      · rw [if_neg hgrow]
        exact (Params.merge_loop_frozen_mem t { p with allow_resize := false } h rfl).1

/-- The carving loop of a merge with enough carved capacity and resizable
children never raises `notResizable`: the per-child carves always fit, so
the doubling reallocation path is unreachable. -/
theorem Params.merge_loop_no_notResizable :
    ∀ (t : List Params) (p : Params) (h : Heap),
    (∀ c ∈ t, c.allow_resize = true) →
    p.i + 1 + sumI t ≤ p.mem.cols →
    (p.merge_loop h t).1 ≠ .error .notResizable := by
  intro t
  induction t with
  | nil =>
    intro p h _ _ hcontra
    exact Except.noConfusion hcontra
  | cons c rest ih =>
    intro p h hall hcap
    have hsum := sumI_cons c rest
    have hgb : p.get_blob h c.i
        = (.ok ⟨p.mem.buf, p.mem.off + p.i, c.i⟩, { p with i := p.i + c.i }, h) :=
      Params.get_blob_fit p h c.i (by omega)
    rcases hrm : c.replace_mem h ⟨p.mem.buf, p.mem.off + p.i, c.i⟩ with ⟨res2, c1, h2⟩
    have hres2 : res2 ≠ .error .notResizable := by
      have := c.replace_mem_no_notResizable h ⟨p.mem.buf, p.mem.off + p.i, c.i⟩
      rw [hrm] at this
      exact this
    cases res2 with
    | error e =>
      have : (p.merge_loop h (c :: rest)).1 = .error e := by
        simp only [Params.merge_loop, hgb, hrm]
      rw [this]
      intro hcontra
      exact hres2 (by rw [hcontra])
    | ok u =>
      have : (p.merge_loop h (c :: rest)).1
          = (Params.merge_loop { p with i := p.i + c.i } h2 rest).1 := by
        simp only [Params.merge_loop, hgb, hrm]
      rw [this]
      exact ih { p with i := p.i + c.i } h2
        (fun x hx => hall x (List.mem_cons_of_mem c hx))
        (by show p.i + c.i + 1 + sumI rest ≤ p.mem.cols; omega)

/-- `get` keeps the backing view except in exactly one situation: a
gradient-marked name while the buffer has a single row. -/
theorem Params.get_mem_cases (p : Params) (h : Heap) (name : String) :
    (p.get h name).2.1.mem = p.mem ∨
    (strStartsWith name "d_" = true ∧ h.viewRows p.mem = 1) := by
  by_cases hpre : strStartsWith name "d_" = true
  · by_cases hrow : h.viewRows p.mem = 1
    · exact Or.inr ⟨hpre, hrow⟩
    · left
      simp [Params.get, hpre, hrow]
  · left
    simp [Params.get, hpre]

/-- `add` never changes the backing view of a frozen arena (the carve is
in place; the growth path aborts before adopting a new buffer). -/
theorem Params.add_frozen_mem (p : Params) (h : Heap) (name : String) (shape : List Nat)
    (hf : p.allow_resize = false) :
    (p.add h name shape).2.1.mem = p.mem := by
  have hs := Params.add_state p h name shape
  have e1 : (p.add h name shape).2.1
      = ({ p with offsets := setOff p.offsets name (p.i, shape) }.get_blob h shape.prod).2.1 :=
    congrArg Prod.fst hs
  rw [e1]
  exact ({ p with offsets := setOff p.offsets name (p.i, shape) }.get_blob_frozen
    h shape.prod hf).1

/-- Reading a recorded blob back through a carved child's `get`: the
lookup succeeds with the recorded shape, and the returned view holds the
child's old content. -/
theorem carved_get (orig c' : Params) (hOld hNew : Heap)
    (hoffs : c'.offsets = orig.offsets) (hcols : c'.mem.cols = orig.i)
    (hcontent : ∀ cc, cc < orig.i → hNew.readV c'.mem 0 cc = hOld.readV orig.mem 0 cc)
    (nm : String) (off : Nat) (shape : List Nat)
    (hnd : strStartsWith nm "d_" = false)
    (hlk : lookupOff orig.offsets nm = some (off, shape))
    (hfit : off + shape.prod ≤ orig.i) :
    ∃ bl, (c'.get hNew nm).1 = .ok (some bl) ∧ bl.shape = shape ∧
      bl.view.cols = shape.prod ∧
      (∀ j, j < shape.prod → hNew.readV bl.view 0 j = hOld.readV orig.mem 0 (off + j)) := by
  have hget1 : (c'.get hNew nm).1 = c'.lookup_blob nm 0 := by
    simp [Params.get, hnd]
  have hlk' : lookupOff c'.offsets nm = some (off, shape) := by
    rw [hoffs]
    exact hlk
  have hlen : min shape.prod (c'.mem.cols - off) = shape.prod := by
    rw [hcols]
    omega
  refine ⟨⟨⟨c'.mem.buf, c'.mem.off + off, shape.prod⟩, 0, shape⟩, ?_, rfl, rfl, ?_⟩
  · rw [hget1]
    simp only [Params.lookup_blob, hlk', hlen]
    rw [if_pos trivial]
  · intro j hj
    have e : hNew.readV ⟨c'.mem.buf, c'.mem.off + off, shape.prod⟩ 0 j
        = hNew.readV c'.mem 0 (off + j) := by
      unfold Heap.readV
      cases hNew.getBuf c'.mem.buf with
      | none => rfl
      | some b =>
        show b.data 0 (c'.mem.off + off + j) = b.data 0 (c'.mem.off + (off + j))
        rw [Nat.add_assoc]
    rw [e]
    exact hcontent (off + j) (by omega)

/-! ### Claim theorems -/

/-- C8: constructing an arena fails with the invalid-argument error for
every negative initial capacity, and for every nonnegative capacity it
yields a 1-row buffer of that column width, an empty directory, cursor 0
and a true resizable flag. -/
theorem c8_construct (h : Heap) (size : Int) :
    (size < 0 → Params.init h size = .error .negativeSize) ∧
    (0 ≤ size → ∃ p h', Params.init h size = .ok (p, h') ∧
      h'.viewRows p.mem = 1 ∧ p.mem.cols = size.toNat ∧ ((size.toNat : Int) = size) ∧
      p.offsets = [] ∧ p.i = 0 ∧ p.allow_resize = true) := by
  constructor
  · intro hneg
    simp [Params.init, hneg]
  · intro hpos
    refine ⟨(Params.initNonneg h size.toNat).1, (Params.initNonneg h size.toNat).2,
      ?_, ?_, rfl, Int.toNat_of_nonneg hpos, rfl, rfl, rfl⟩
    · simp [Params.init, Int.not_lt.mpr hpos]
    · have hg : (Params.initNonneg h size.toNat).2.getBuf h.bufs.length
          = some (Buffer.zero 1 size.toNat) := Heap.getBuf_alloc_self h _
      show (match (Params.initNonneg h size.toNat).2.getBuf h.bufs.length with
        | some b => b.rows
        | none => 0) = 1
      rw [hg]
      rfl

/-- C8 witness: `Construct(-1)` fails, `Construct(5)` builds the fresh arena. -/
theorem c8_construct_witness :
    ((-1 : Int) < 0 ∧ Params.init ⟨[]⟩ (-1) = .error .negativeSize) ∧
    ((0 : Int) ≤ 5 ∧ ∃ p h', Params.init ⟨[]⟩ 5 = .ok (p, h') ∧
      h'.viewRows p.mem = 1 ∧ p.mem.cols = (5 : Int).toNat ∧ (((5 : Int).toNat : Int) = 5) ∧
      p.offsets = [] ∧ p.i = 0 ∧ p.allow_resize = true) :=
  ⟨⟨by decide, (c8_construct ⟨[]⟩ (-1)).1 (by decide)⟩,
   ⟨by decide, (c8_construct ⟨[]⟩ 5).2 (by decide)⟩⟩

/-- C9: a `get` of a name that does not begin with the gradient marker
`d_` leaves the arena's directory, cursor, capacity, buffer identity and
content, resizable flag — and the whole heap — unchanged, found or not. -/
theorem c9_get_value_frame (p : Params) (h : Heap) (name : String)
    (hn : strStartsWith name "d_" = false) :
    (p.get h name).2.1 = p ∧ (p.get h name).2.2 = h := by
  have hs := p.get_value_state h name hn
  exact ⟨congrArg Prod.fst hs, congrArg Prod.snd hs⟩

/-- C9 witness at a concrete arena and an absent plain name. -/
theorem c9_get_value_frame_witness :
    strStartsWith "w" "d_" = false ∧
    (((Params.initNonneg ⟨[]⟩ 4).1.get (Params.initNonneg ⟨[]⟩ 4).2 "w").2.1
        = (Params.initNonneg ⟨[]⟩ 4).1 ∧
      ((Params.initNonneg ⟨[]⟩ 4).1.get (Params.initNonneg ⟨[]⟩ 4).2 "w").2.2
        = (Params.initNonneg ⟨[]⟩ 4).2) :=
  ⟨by decide,
   c9_get_value_frame (Params.initNonneg ⟨[]⟩ 4).1 (Params.initNonneg ⟨[]⟩ 4).2 "w" (by decide)⟩

/-- C7: on a 1-row arena, a `get` of a gradient-marked name replaces the
buffer with a fresh 2-row buffer of the same column width; row 0 is a full
copy of the old row 0 (so every previously added value blob keeps its
shape and content), row 1 is zero; directory, cursor and the resizable
flag are untouched — the growth happens whatever the flag's value. -/
theorem c7_gradient_row_growth (p : Params) (h : Heap) (name : String)
    (hname : strStartsWith name "d_" = true)
    (hrow : h.viewRows p.mem = 1)
    (hpb : p.mem.buf < h.bufs.length) :
    (p.get h name).2.1.mem.buf = h.bufs.length ∧
    (p.get h name).2.1.mem.buf ≠ p.mem.buf ∧
    (p.get h name).2.2.bufs.length = h.bufs.length + 1 ∧
    (p.get h name).2.2.viewRows (p.get h name).2.1.mem = 2 ∧
    (p.get h name).2.1.mem.cols = p.mem.cols ∧
    (∀ c, c < p.mem.cols →
      (p.get h name).2.2.readV (p.get h name).2.1.mem 0 c = h.readV p.mem 0 c) ∧
    (∀ c, (p.get h name).2.2.readV (p.get h name).2.1.mem 1 c = 0) ∧
    (p.get h name).2.1.offsets = p.offsets ∧
    (p.get h name).2.1.i = p.i ∧
    (p.get h name).2.1.allow_resize = p.allow_resize := by
  obtain ⟨hmem, hlen, hvr, hr0, hr1, -⟩ := p.alloc_gradients_spec h
  have hbr : (p.get h name).2 = ((p.alloc_gradients h).1, (p.alloc_gradients h).2) := by
    simp [Params.get, hname, hrow]
  have e1 : (p.get h name).2.1 = (p.alloc_gradients h).1 := congrArg Prod.fst hbr
  have e2 : (p.get h name).2.2 = (p.alloc_gradients h).2 := congrArg Prod.snd hbr
  have hmem' : (p.get h name).2.1.mem = ⟨h.bufs.length, 0, p.mem.cols⟩ := by
    rw [e1, hmem]
  refine ⟨by rw [hmem'], ?_, by rw [e2]; exact hlen, by rw [e2, hmem']; exact hvr,
    by rw [hmem'], ?_, ?_, by rw [e1, hmem], by rw [e1, hmem], by rw [e1, hmem]⟩
  · rw [hmem']
    show h.bufs.length ≠ p.mem.buf
    omega
  · intro c hc
    rw [e2, hmem']
    exact hr0 c hc
  · intro c
    rw [e2, hmem']
    exact hr1 c

/-- C7 witness: a fresh capacity-3 arena, gradient name `d_x`. -/
theorem c7_gradient_row_growth_witness :
    strStartsWith "d_x" "d_" = true ∧
    Heap.viewRows (Params.initNonneg ⟨[]⟩ 3).2 (Params.initNonneg ⟨[]⟩ 3).1.mem = 1 ∧
    (Params.initNonneg ⟨[]⟩ 3).1.mem.buf < (Params.initNonneg ⟨[]⟩ 3).2.bufs.length ∧
    ((Params.initNonneg ⟨[]⟩ 3).1.get (Params.initNonneg ⟨[]⟩ 3).2 "d_x").2.2.viewRows
      ((Params.initNonneg ⟨[]⟩ 3).1.get (Params.initNonneg ⟨[]⟩ 3).2 "d_x").2.1.mem = 2 ∧
    ((Params.initNonneg ⟨[]⟩ 3).1.get (Params.initNonneg ⟨[]⟩ 3).2 "d_x").2.1.mem.buf
      ≠ (Params.initNonneg ⟨[]⟩ 3).1.mem.buf :=
  ⟨by decide, by decide, by decide,
   (c7_gradient_row_growth _ _ "d_x" (by decide) (by decide) (by decide)).2.2.2.1,
   (c7_gradient_row_growth _ _ "d_x" (by decide) (by decide) (by decide)).2.1⟩

/-- C5: on a resizable arena whose requested size exceeds the available
columns `capacity - (cursor + 1)`, `add` performs exactly one reallocation
(one fresh buffer, adopted); the new capacity is `max(capacity, n) * 2`,
hence at least twice the old capacity and at least the request; every
other directory entry and all committed columns (hence every
previously-added blob's offset, shape and content) carry over. -/
theorem c5_add_growth (p : Params) (h : Heap) (name : String) (shape : List Nat)
    (hres : p.allow_resize = true)
    (hneed : (p.mem.cols : Int) - ((p.i : Int) + 1) < (shape.prod : Int))
    (hwf : p.i + 1 ≤ p.mem.cols) :
    (p.add h name shape).2.2.bufs.length = h.bufs.length + 1 ∧
    (p.add h name shape).2.1.mem.buf = h.bufs.length ∧
    (p.add h name shape).2.1.mem.cols = max p.mem.cols shape.prod * 2 ∧
    2 * p.mem.cols ≤ max p.mem.cols shape.prod * 2 ∧
    shape.prod ≤ max p.mem.cols shape.prod * 2 ∧
    (∀ m, m ≠ name → lookupOff (p.add h name shape).2.1.offsets m = lookupOff p.offsets m) ∧
    (∀ r c, r < h.viewRows p.mem → c ≤ p.i →
      (p.add h name shape).2.2.readV (p.add h name shape).2.1.mem r c = h.readV p.mem r c) := by
  have hmaxl := Nat.le_max_left p.mem.cols shape.prod
  have hmaxr := Nat.le_max_right p.mem.cols shape.prod
  have hblob := Params.get_blob_grow { p with offsets := setOff p.offsets name (p.i, shape) }
    h shape.prod hres hneed hwf
  obtain ⟨-, -, hlen, -, -, hcopy⟩ :=
    Params.realloc_spec { p with offsets := setOff p.offsets name (p.i, shape) } h
      (max p.mem.cols shape.prod * 2) hres hwf (by show p.i + 1 ≤ _; omega)
  refine ⟨?_, ?_, ?_, by omega, by omega, ?_, ?_⟩
  · rw [Params.add_state, hblob]
    exact hlen
  · rw [Params.add_state, hblob]
  · rw [Params.add_state, hblob]
  · intro m hm
    rw [Params.add_state, hblob]
    show lookupOff (setOff p.offsets name (p.i, shape)) m = lookupOff p.offsets m
    exact lookupOff_setOff_ne p.offsets name m (p.i, shape) hm
  · intro r c hr hc
    rw [Params.add_state, hblob]
    show ({ p with offsets := setOff p.offsets name (p.i, shape) }.realloc h
      (max p.mem.cols shape.prod * 2)).2.2.readV
      ⟨h.bufs.length, 0, max p.mem.cols shape.prod * 2⟩ r c = h.readV p.mem r c
    exact hcopy r c hr (by show c < p.i + 1; omega)

/-- C5 witness: capacity-2 arena, request of 3 columns, growth to 6. -/
theorem c5_add_growth_witness :
    (Params.initNonneg ⟨[]⟩ 2).1.allow_resize = true ∧
    (((Params.initNonneg ⟨[]⟩ 2).1.mem.cols : Int)
      - (((Params.initNonneg ⟨[]⟩ 2).1.i : Int) + 1) < (([3] : List Nat).prod : Int)) ∧
    (Params.initNonneg ⟨[]⟩ 2).1.i + 1 ≤ (Params.initNonneg ⟨[]⟩ 2).1.mem.cols ∧
    ((Params.initNonneg ⟨[]⟩ 2).1.add (Params.initNonneg ⟨[]⟩ 2).2 "w" [3]).2.2.bufs.length
      = (Params.initNonneg ⟨[]⟩ 2).2.bufs.length + 1 ∧
    ((Params.initNonneg ⟨[]⟩ 2).1.add (Params.initNonneg ⟨[]⟩ 2).2 "w" [3]).2.1.mem.cols
      = max (Params.initNonneg ⟨[]⟩ 2).1.mem.cols ([3] : List Nat).prod * 2 :=
  ⟨by decide, by decide, by decide,
   (c5_add_growth (Params.initNonneg ⟨[]⟩ 2).1 (Params.initNonneg ⟨[]⟩ 2).2 "w" [3]
     (by decide) (by decide) (by decide)).1,
   (c5_add_growth (Params.initNonneg ⟨[]⟩ 2).1 (Params.initNonneg ⟨[]⟩ 2).2 "w" [3]
     (by decide) (by decide) (by decide)).2.2.1⟩

/-- C2 counterexample: the child's cursor is 2, the parent's cursor starts
at 0, the merge succeeds — but the parent's cursor afterwards is 2, not
0 + (2 + 1): the loop carves `child.cursor` columns per child (the
`cursor + 1` committed size is used only for the upfront capacity sum),
and the child's adopted window is 2 columns wide, not 3. -/
theorem c2_counterexample :
    c2C.2.1.i = 2 ∧ c2P.1.i = 0 ∧ c2M.1 = .ok () ∧
    c2M.2.1.i = 2 ∧ ¬ (c2M.2.1.i = c2P.1.i + (c2C.2.1.i + 1)) ∧
    (c2M.2.2.1.map fun c => c.mem.cols) = [2] :=
  ⟨rfl, rfl, rfl, rfl, by decide, rfl⟩

/-- C2 (amended): for a merge with a non-empty list of resizable,
well-formed children and a resizable well-formed parent, the loop carves,
for each child in order, a region of that child's cursor (not cursor + 1:
the committed size with its guard column enters only the upfront sizing
sum), advancing the parent's cursor by that amount per child — the
children end up exactly the in-order carve of the parent's buffer. -/
theorem c2_amended_merge_carve (p : Params) (h : Heap) (t : List Params)
    (hne : t ≠ [])
    (hall : ∀ c ∈ t, c.allow_resize = true)
    (hwfc : ∀ c ∈ t, c.i ≤ c.mem.cols)
    (hrows : ∀ c ∈ t, h.viewRows c.mem = h.viewRows p.mem ∨ h.viewRows c.mem = 1)
    (hbufne : ∀ c ∈ t, c.mem.buf ≠ p.mem.buf)
    (hbuflt : ∀ c ∈ t, c.mem.buf < h.bufs.length)
    (hwfp : p.i + 1 ≤ p.mem.cols)
    (hpb : p.mem.buf < h.bufs.length)
    (hR : 1 ≤ h.viewRows p.mem)
    (hres : p.allow_resize = true) :
    (p.merge_params h t).1 = .ok () ∧
    (p.merge_params h t).2.1.i = p.i + sumI t ∧
    (p.merge_params h t).2.2.1
      = carveChildren (p.merge_params h t).2.1.mem.buf
          ((p.merge_params h t).2.1.mem.off + p.i) t := by
  obtain ⟨M1, -, M3, -, -, -, M7, -⟩ :=
    Params.merge_params_spec p h t hne hall hwfc hrows hbufne hbuflt hwfp hpb hR
      (Or.inl hres)
  exact ⟨M1, M3, M7⟩

/-- C2 witness: the concrete parent/child pair of the counterexample
satisfies the amended statement (cursor advance 2 = the child's cursor). -/
theorem c2_amended_merge_carve_witness :
    c2C.2.1.allow_resize = true ∧ c2P.1.allow_resize = true ∧
    (c2P.1.merge_params c2C.2.2 [c2C.2.1]).1 = .ok () ∧
    (c2P.1.merge_params c2C.2.2 [c2C.2.1]).2.1.i = c2P.1.i + sumI [c2C.2.1] ∧
    (c2P.1.merge_params c2C.2.2 [c2C.2.1]).2.2.1
      = carveChildren (c2P.1.merge_params c2C.2.2 [c2C.2.1]).2.1.mem.buf
          ((c2P.1.merge_params c2C.2.2 [c2C.2.1]).2.1.mem.off + c2P.1.i) [c2C.2.1] :=
  ⟨by decide, by decide,
   (c2_amended_merge_carve c2P.1 c2C.2.2 [c2C.2.1] (by decide) (by decide) (by decide)
     (by decide) (by decide) (by decide) (by decide) (by decide) (by decide) (by decide)).1,
   (c2_amended_merge_carve c2P.1 c2C.2.2 [c2C.2.1] (by decide) (by decide) (by decide)
     (by decide) (by decide) (by decide) (by decide) (by decide) (by decide) (by decide)).2.1,
   (c2_amended_merge_carve c2P.1 c2C.2.2 [c2C.2.1] (by decide) (by decide) (by decide)
     (by decide) (by decide) (by decide) (by decide) (by decide) (by decide) (by decide)).2.2⟩

/-- C10 counterexample: a merge whose children all pass the
resizable-children precondition still raises `NotResizable` — the parent
was frozen by an earlier merge and its capacity (2) is below the required
width (5), so the upfront sizing reallocation hits the frozen gate. -/
theorem c10_counterexample :
    ([c10C2.2.1].all fun o => o.allow_resize) = true ∧
    c10M1.2.1.allow_resize = false ∧
    c10M2.1 = .error .notResizable :=
  ⟨rfl, rfl, rfl⟩

/-- C10 (amended): once past the upfront sizing, the per-child carves
always fit (capacity ≥ cursor + Σ(childᵢ + 1) ≥ per-step need), so the
doubling-reallocation path inside the loop is unreachable; a merge whose
children are all resizable can therefore raise `NotResizable` only at the
upfront sizing step, which happens exactly when the parent is already
frozen and too narrow — with a resizable (or wide-enough) parent, merge
never raises `NotResizable`. -/
theorem c10_amended_no_notResizable (p : Params) (h : Heap) (t : List Params)
    (hall : ∀ c ∈ t, c.allow_resize = true)
    (hok : p.allow_resize = true ∨ p.i + (t.map fun o => o.i + 1).sum ≤ p.mem.cols) :
    (p.merge_params h t).1 ≠ .error .notResizable := by
  cases t with
  | nil =>
    intro hcontra
    have hend : (p.merge_params h ([] : List Params)).1 = .ok () := by
      simp [Params.merge_params]
    rw [hend] at hcontra
    exact Except.noConfusion hcontra
  | cons a b =>
    have hsum := sizes_sum (a :: b)
    have hsum2 := sumI_cons a b
    have halltrue : ((a :: b).all fun o => o.allow_resize) = true :=
      List.all_eq_true.mpr hall
    have hlen1 : 1 ≤ (a :: b).length := by simp
    simp only [Params.merge_params]
    rw [if_neg (by simp), if_neg (by simp [halltrue])]
    by_cases hgrow : p.mem.cols < p.i + ((a :: b).map fun o => o.i + 1).sum
    · rw [if_pos hgrow]
      rcases Params.realloc_cases p h (p.i + ((a :: b).map fun o => o.i + 1).sum) with
        ⟨hf, -⟩ | ⟨he, -⟩ | ⟨he, hp1⟩
      · rcases hok with h1 | h1
        · rw [h1] at hf
          exact Bool.noConfusion hf
        · omega
      · rcases hy : p.realloc h (p.i + ((a :: b).map fun o => o.i + 1).sum) with ⟨resR, p2, h2⟩
        rw [hy] at he
        have hresR : resR = .error .broadcast := he
        subst hresR
        intro hcontra
        exact Err.noConfusion (Except.error.inj hcontra)
      · rcases hy : p.realloc h (p.i + ((a :: b).map fun o => o.i + 1).sum) with ⟨resR, p2, h2⟩
        rw [hy] at he hp1
        have hresR : resR = .ok () := he
        have hp2 : p2 = { p with
            mem := ⟨h.bufs.length, 0, p.i + ((a :: b).map fun o => o.i + 1).sum⟩ } := hp1
        subst hresR
        subst hp2
        intro hcontra
        exact Params.merge_loop_no_notResizable (a :: b) _ h2 hall
          (by show p.i + 1 + sumI (a :: b) ≤ p.i + ((a :: b).map fun o => o.i + 1).sum
              omega)
          hcontra
    · rw [if_neg hgrow]
      intro hcontra
      exact Params.merge_loop_no_notResizable (a :: b) { p with allow_resize := false } h hall
        (by show p.i + 1 + sumI (a :: b) ≤ p.mem.cols; omega) hcontra

/-- C10 witness: a fresh resizable parent and one resizable child. -/
theorem c10_amended_no_notResizable_witness :
    (∀ c ∈ [(Params.initNonneg (Params.initNonneg ⟨[]⟩ 4).2 2).1], c.allow_resize = true) ∧
    (Params.initNonneg ⟨[]⟩ 4).1.allow_resize = true ∧
    ((Params.initNonneg ⟨[]⟩ 4).1.merge_params
        (Params.initNonneg (Params.initNonneg ⟨[]⟩ 4).2 2).2
        [(Params.initNonneg (Params.initNonneg ⟨[]⟩ 4).2 2).1]).1
      ≠ .error .notResizable :=
  ⟨by decide, by decide,
   c10_amended_no_notResizable (Params.initNonneg ⟨[]⟩ 4).1
     (Params.initNonneg (Params.initNonneg ⟨[]⟩ 4).2 2).2
     [(Params.initNonneg (Params.initNonneg ⟨[]⟩ 4).2 2).1]
     (by decide) (Or.inl (by decide))⟩

/-- C3 counterexample: a frozen arena (parent of a completed merge) whose
buffer has one row; `get` of a gradient-marked name replaces its backing
buffer with a fresh one — the buffer identity changes even though
`resizable` is false. -/
theorem c3_counterexample :
    c3M.2.1.allow_resize = false ∧
    c3M.2.2.2.viewRows c3M.2.1.mem = 1 ∧
    c3G.2.1.mem.buf ≠ c3M.2.1.mem.buf :=
  ⟨rfl, rfl, by decide⟩

/-- C3 (amended): on a frozen arena no `get`, `add` or `merge` changes
the identity of the backing buffer — with the single exception of `get`
of a gradient-marked name while the buffer has one row, whose lazy
gradient-row growth replaces the buffer regardless of the flag. -/
theorem c3_amended_frozen_buffer_identity (p : Params) (h : Heap) (name : String)
    (shape : List Nat) (t : List Params) (hf : p.allow_resize = false) :
    ((p.get h name).2.1.mem = p.mem ∨
      (strStartsWith name "d_" = true ∧ h.viewRows p.mem = 1)) ∧
    (p.add h name shape).2.1.mem = p.mem ∧
    (p.merge_params h t).2.1.mem = p.mem := by
  exact ⟨p.get_mem_cases h name, p.add_frozen_mem h name shape hf,
    p.merge_params_frozen_mem h t hf⟩

/-- C3 witness: the frozen merged parent; a value-name `get`, an `add`
and a `merge` all keep its backing view. -/
theorem c3_amended_frozen_buffer_identity_witness :
    c3M.2.1.allow_resize = false ∧
    (((c3M.2.1.get c3M.2.2.2 "x").2.1.mem = c3M.2.1.mem ∨
      (strStartsWith "x" "d_" = true ∧ c3M.2.2.2.viewRows c3M.2.1.mem = 1)) ∧
     (c3M.2.1.add c3M.2.2.2 "y" [5]).2.1.mem = c3M.2.1.mem ∧
     (c3M.2.1.merge_params c3M.2.2.2 []).2.1.mem = c3M.2.1.mem) :=
  ⟨by decide,
   c3_amended_frozen_buffer_identity c3M.2.1 c3M.2.2.2 "x" [5] [] (by decide)⟩

/-- C4: merging two resizable, well-formed children into a well-formed
parent (still resizable or already wide enough): the merge succeeds, the
parent and both children end non-resizable, each child keeps its
directory (hence every recorded shape) and becomes exactly its in-order
window of the parent's buffer; each window holds the child's old row-0
content; a write through a child's window is visible through the parent's
view at the corresponding column (aliasing); and every blob previously
recorded in a child reads back through that child's `get` with its
recorded shape and its old content. -/
theorem c4_merge_two_children (p a b : Params) (h : Heap)
    (hra : a.allow_resize = true) (hrb : b.allow_resize = true)
    (hwa : a.i ≤ a.mem.cols) (hwb : b.i ≤ b.mem.cols)
    (hrowa : h.viewRows a.mem = h.viewRows p.mem ∨ h.viewRows a.mem = 1)
    (hrowb : h.viewRows b.mem = h.viewRows p.mem ∨ h.viewRows b.mem = 1)
    (hna : a.mem.buf ≠ p.mem.buf) (hnb : b.mem.buf ≠ p.mem.buf)
    (hla : a.mem.buf < h.bufs.length) (hlb : b.mem.buf < h.bufs.length)
    (hwfp : p.i + 1 ≤ p.mem.cols) (hpb : p.mem.buf < h.bufs.length)
    (hR : 1 ≤ h.viewRows p.mem)
    (hok : p.allow_resize = true ∨ p.i + ([a, b].map fun o => o.i + 1).sum ≤ p.mem.cols) :
    (p.merge_params h [a, b]).1 = .ok () ∧
    (p.merge_params h [a, b]).2.1.allow_resize = false ∧
    (p.merge_params h [a, b]).2.2.1 =
      [{ a with allow_resize := false, mem := ⟨(p.merge_params h [a, b]).2.1.mem.buf,
          (p.merge_params h [a, b]).2.1.mem.off + p.i, a.i⟩ },
       { b with allow_resize := false, mem := ⟨(p.merge_params h [a, b]).2.1.mem.buf,
          (p.merge_params h [a, b]).2.1.mem.off + p.i + a.i, b.i⟩ }] ∧
    (∀ cc, cc < a.i → (p.merge_params h [a, b]).2.2.2.readV
        ⟨(p.merge_params h [a, b]).2.1.mem.buf,
         (p.merge_params h [a, b]).2.1.mem.off + p.i, a.i⟩ 0 cc
      = h.readV a.mem 0 cc) ∧
    (∀ cc, cc < b.i → (p.merge_params h [a, b]).2.2.2.readV
        ⟨(p.merge_params h [a, b]).2.1.mem.buf,
         (p.merge_params h [a, b]).2.1.mem.off + p.i + a.i, b.i⟩ 0 cc
      = h.readV b.mem 0 cc) ∧
    (∀ r cc x, ((p.merge_params h [a, b]).2.2.2.writeV
        ⟨(p.merge_params h [a, b]).2.1.mem.buf,
         (p.merge_params h [a, b]).2.1.mem.off + p.i, a.i⟩ r cc x).readV
        (p.merge_params h [a, b]).2.1.mem r (p.i + cc) = x) ∧
    (∀ r cc x, ((p.merge_params h [a, b]).2.2.2.writeV
        ⟨(p.merge_params h [a, b]).2.1.mem.buf,
         (p.merge_params h [a, b]).2.1.mem.off + p.i + a.i, b.i⟩ r cc x).readV
        (p.merge_params h [a, b]).2.1.mem r (p.i + a.i + cc) = x) ∧
    (∀ nm off shape, strStartsWith nm "d_" = false →
      lookupOff a.offsets nm = some (off, shape) → off + shape.prod ≤ a.i →
      ∃ bl, (({ a with allow_resize := false, mem := ⟨(p.merge_params h [a, b]).2.1.mem.buf,
          (p.merge_params h [a, b]).2.1.mem.off + p.i, a.i⟩ } : Params).get
            (p.merge_params h [a, b]).2.2.2 nm).1 = .ok (some bl) ∧
        bl.shape = shape ∧
        (∀ j, j < shape.prod → (p.merge_params h [a, b]).2.2.2.readV bl.view 0 j
          = h.readV a.mem 0 (off + j))) ∧
    (∀ nm off shape, strStartsWith nm "d_" = false →
      lookupOff b.offsets nm = some (off, shape) → off + shape.prod ≤ b.i →
      ∃ bl, (({ b with allow_resize := false, mem := ⟨(p.merge_params h [a, b]).2.1.mem.buf,
          (p.merge_params h [a, b]).2.1.mem.off + p.i + a.i, b.i⟩ } : Params).get
            (p.merge_params h [a, b]).2.2.2 nm).1 = .ok (some bl) ∧
        bl.shape = shape ∧
        (∀ j, j < shape.prod → (p.merge_params h [a, b]).2.2.2.readV bl.view 0 j
          = h.readV b.mem 0 (off + j))) := by
  obtain ⟨M1, M2, M3, M4, M5, M6, M7, M8⟩ :=
    Params.merge_params_spec p h [a, b] (by simp)
      (by intro c hc
          simp only [List.mem_cons, List.not_mem_nil, or_false] at hc
          rcases hc with rfl | rfl
          · exact hra
          · exact hrb)
      (by intro c hc
          simp only [List.mem_cons, List.not_mem_nil, or_false] at hc
          rcases hc with rfl | rfl
          · exact hwa
          · exact hwb)
      (by intro c hc
          simp only [List.mem_cons, List.not_mem_nil, or_false] at hc
          rcases hc with rfl | rfl
          · exact hrowa
          · exact hrowb)
      (by intro c hc
          simp only [List.mem_cons, List.not_mem_nil, or_false] at hc
          rcases hc with rfl | rfl
          · exact hna
          · exact hnb)
      (by intro c hc
          simp only [List.mem_cons, List.not_mem_nil, or_false] at hc
          rcases hc with rfl | rfl
          · exact hla
          · exact hlb)
      hwfp hpb hR hok
  have hchild : (p.merge_params h [a, b]).2.2.1 =
      [{ a with allow_resize := false, mem := ⟨(p.merge_params h [a, b]).2.1.mem.buf,
          (p.merge_params h [a, b]).2.1.mem.off + p.i, a.i⟩ },
       { b with allow_resize := false, mem := ⟨(p.merge_params h [a, b]).2.1.mem.buf,
          (p.merge_params h [a, b]).2.1.mem.off + p.i + a.i, b.i⟩ }] := by
    rw [M7]
    rfl
  rw [hchild] at M8
  rw [List.forall₂_cons] at M8
  obtain ⟨hPa, M8'⟩ := M8
  rw [List.forall₂_cons] at M8'
  obtain ⟨hPb, -⟩ := M8'
  refine ⟨M1, M2, hchild, fun cc hcc => hPa cc hcc, fun cc hcc => hPb cc hcc, ?_, ?_, ?_, ?_⟩
  · intro r cc x
    exact Heap.readV_writeV_hit (p.merge_params h [a, b]).2.2.2
      ⟨(p.merge_params h [a, b]).2.1.mem.buf,
       (p.merge_params h [a, b]).2.1.mem.off + p.i, a.i⟩
      (p.merge_params h [a, b]).2.1.mem r cc (p.i + cc) x rfl M6
      (by show (p.merge_params h [a, b]).2.1.mem.off + p.i + cc
            = (p.merge_params h [a, b]).2.1.mem.off + (p.i + cc)
          omega)
  · intro r cc x
    exact Heap.readV_writeV_hit (p.merge_params h [a, b]).2.2.2
      ⟨(p.merge_params h [a, b]).2.1.mem.buf,
       (p.merge_params h [a, b]).2.1.mem.off + p.i + a.i, b.i⟩
      (p.merge_params h [a, b]).2.1.mem r cc (p.i + a.i + cc) x rfl M6
      (by show (p.merge_params h [a, b]).2.1.mem.off + p.i + a.i + cc
            = (p.merge_params h [a, b]).2.1.mem.off + (p.i + a.i + cc)
          omega)
  · intro nm off shape hnd hlk hfit
    obtain ⟨bl, e1, e2, -, e4⟩ :=
      carved_get a
        { a with allow_resize := false, mem := ⟨(p.merge_params h [a, b]).2.1.mem.buf,
          (p.merge_params h [a, b]).2.1.mem.off + p.i, a.i⟩ }
        h (p.merge_params h [a, b]).2.2.2 rfl rfl (fun cc hcc => hPa cc hcc)
        nm off shape hnd hlk hfit
    exact ⟨bl, e1, e2, e4⟩
  · intro nm off shape hnd hlk hfit
    obtain ⟨bl, e1, e2, -, e4⟩ :=
      carved_get b
        { b with allow_resize := false, mem := ⟨(p.merge_params h [a, b]).2.1.mem.buf,
          (p.merge_params h [a, b]).2.1.mem.off + p.i + a.i, b.i⟩ }
        h (p.merge_params h [a, b]).2.2.2 rfl rfl (fun cc hcc => hPb cc hcc)
        nm off shape hnd hlk hfit
    exact ⟨bl, e1, e2, e4⟩

/-- C4 witness: the concrete two-child merge succeeds, freezes everyone,
and carves the two windows in order. -/
theorem c4_merge_two_children_witness :
    c4A.2.1.allow_resize = true ∧ c4B.2.1.allow_resize = true ∧
    c4M.1 = .ok () ∧ c4M.2.1.allow_resize = false ∧
    c4M.2.2.1 =
      [{ c4A.2.1 with
          allow_resize := false
          mem := ⟨c4M.2.1.mem.buf, c4M.2.1.mem.off + c4P.1.i, c4A.2.1.i⟩ },
       { c4B.2.1 with
          allow_resize := false
          mem := ⟨c4M.2.1.mem.buf, c4M.2.1.mem.off + c4P.1.i + c4A.2.1.i, c4B.2.1.i⟩ }] :=
  ⟨by decide, by decide,
   (c4_merge_two_children c4P.1 c4A.2.1 c4B.2.1 c4B.2.2 (by decide) (by decide) (by decide)
     (by decide) (by decide) (by decide) (by decide) (by decide) (by decide) (by decide)
     (by decide) (by decide) (by decide) (Or.inl (by decide))).1,
   (c4_merge_two_children c4P.1 c4A.2.1 c4B.2.1 c4B.2.2 (by decide) (by decide) (by decide)
     (by decide) (by decide) (by decide) (by decide) (by decide) (by decide) (by decide)
     (by decide) (by decide) (by decide) (Or.inl (by decide))).2.1,
   (c4_merge_two_children c4P.1 c4A.2.1 c4B.2.1 c4B.2.2 (by decide) (by decide) (by decide)
     (by decide) (by decide) (by decide) (by decide) (by decide) (by decide) (by decide)
     (by decide) (by decide) (by decide) (Or.inl (by decide))).2.2.1⟩

/-- C6: merging a list that contains a non-resizable child fails with the
invalid-argument error of the merge precondition and returns the parent,
the children and the heap exactly as they were — nothing is mutated. -/
theorem c6_merge_frozen_child_rejected (p : Params) (h : Heap) (others : List Params)
    (c : Params) (hmem : c ∈ others) (hfrozen : c.allow_resize = false) :
    p.merge_params h others = (.error .mergeFrozenChild, p, others, h) := by
  have hne : others.isEmpty = false := by
    cases others with
    | nil => cases hmem
    | cons a t => rfl
  have hall : (others.all fun o => o.allow_resize) = false := by
    cases hx : others.all fun o => o.allow_resize with
    | false => rfl
    | true =>
      have := List.all_eq_true.mp hx c hmem
      rw [hfrozen] at this
      exact Bool.noConfusion this
  simp [Params.merge_params, hne, hall]

/-- C1: `add` then `get` round-trips on a 1-row arena, but on a 2-row
arena `add` raises a numpy reshape error, because `_get_blob` returns a
blob spanning both rows (`2 * prod(shape)` elements) and
`blob.reshape(shape)` needs exactly `prod(shape)`.  The spec's sentence
"this holds whether the arena's buffer has 1 row or 2 rows" is the
intent, and the code is the slip: here `Construct(4)`, `add("w",(1,))`,
`get("d_w")` (growing to 2 rows), then `add("b",(2,))` raises instead of
returning a `(2,)`-shaped view. -/
theorem c1_add_on_two_row_arena_raises :
    c1S1.1 = .ok ⟨⟨0, 0, 1⟩, 0, [1]⟩ ∧
    c1S2.2.2.viewRows c1S2.2.1.mem = 2 ∧
    c1S3.1 = .error .reshape :=
  ⟨rfl, rfl, rfl⟩

/-- C6 witness: one frozen child, concrete parent and heap. -/
theorem c6_merge_frozen_child_rejected_witness :
    (⟨⟨1, 0, 4⟩, [], 0, false⟩ : Params) ∈ [(⟨⟨1, 0, 4⟩, [], 0, false⟩ : Params)] ∧
    (⟨⟨1, 0, 4⟩, [], 0, false⟩ : Params).allow_resize = false ∧
    Params.merge_params ⟨⟨0, 0, 4⟩, [], 0, true⟩ ⟨[Buffer.zero 1 4, Buffer.zero 1 4]⟩
        [⟨⟨1, 0, 4⟩, [], 0, false⟩] =
      (.error .mergeFrozenChild, ⟨⟨0, 0, 4⟩, [], 0, true⟩, [⟨⟨1, 0, 4⟩, [], 0, false⟩],
        ⟨[Buffer.zero 1 4, Buffer.zero 1 4]⟩) :=
  ⟨List.mem_singleton.mpr rfl, rfl,
   c6_merge_frozen_child_rejected _ _ _ _ (List.mem_singleton.mpr rfl) rfl⟩

end ParamsModel
